import Mathlib

/-!
Shallow embedding of the RainCache repository (plain LRU, LRU-K, sharded LRU,
and ARC) together with proofs checking the natural-language specification
against the code.

The C++ caches pair an `unordered_map` with an intrusive doubly-linked list
whose key sets coincide at all times; each (map, list) pair is embedded as a
single association list of entries carrying the list order.  `RainLru` keeps
its most-recently-used entry at the *back* of the list (the C++ code appends
before the tail sentinel and evicts `head->next`); the ARC halves keep the
most-recently-used entry at the *front* (the C++ code prepends after the head
sentinel and evicts `tail->prev`).  Ghost lists store nodes whose value and
access count are never read again, so they are embedded as key lists.
-/

set_option autoImplicit false
set_option linter.unusedSectionVars false

namespace RainCache

variable {K V : Type} [DecidableEq K]

/-- Entry of a cache list: the C++ `LruNode` / `ArcNode` payload
(key, value, access count).  `ArcNode` lives in `RainArcNode.h`, which is not
in the sources; per the spec an entry is a `(key, value, access_count)` triple
whose count starts at 1. -/
structure LruEntry (K V : Type) where
  key : K
  value : V
  accessCount : Nat
deriving DecidableEq, Repr

/-- Lookup in the combined map/list state: `nodeMap_.find(key)`. -/
def findKey (k : K) (l : List (LruEntry K V)) : Option (LruEntry K V) :=
  l.find? (fun e => decide (e.key = k))

/-- Removal of the entry with key `k` (unlink from the list and erase from
the map); keys are unique in every reachable state, so filtering is the
first-occurrence erase of the C++ map. -/
def removeKey (k : K) (l : List (LruEntry K V)) : List (LruEntry K V) :=
  l.filter (fun e => !(decide (e.key = k)))

/-- Removal of a key from a ghost key list. -/
def removeKeyG (k : K) (l : List K) : List K :=
  l.filter (fun x => !(decide (x = k)))

/-- Lookup in an `unordered_map<Key, Value>` embedded as an association list. -/
def lookupKV (k : K) (l : List (K × V)) : Option V :=
  (l.find? (fun p => decide (p.1 = k))).map (fun p => p.2)

/-- Assignment `m[k] = v` on an `unordered_map`: replace in place or append. -/
def insertKV (k : K) (v : V) : List (K × V) → List (K × V)
  | [] => [(k, v)]
  | p :: ps => if p.1 = k then (k, v) :: ps else p :: insertKV k v ps

/-- Erasure `m.erase(k)` on an `unordered_map`. -/
def eraseKV (k : K) (l : List (K × V)) : List (K × V) :=
  l.filter (fun p => !(decide (p.1 = k)))

/-- State of `RainLru` (RainLru.h): an `int` capacity and the map/list of
live entries; the back of `list` is the most recently used entry. -/
structure RainLruState (K V : Type) where
  capacity : Int
  list : List (LruEntry K V)
deriving DecidableEq, Repr

/-- Constructor `RainLru(int capacity)`. -/
def RainLru.init (capacity : Int) : RainLruState K V :=
  ⟨capacity, []⟩

/-- Method `RainLru::put`: zero/negative capacity is a no-op; an existing key
is updated (value overwritten, node moved to the back, access count kept);
otherwise evict the front node when full and append a fresh node with access
count 1. -/
def RainLru.put (s : RainLruState K V) (k : K) (v : V) : RainLruState K V :=
  if s.capacity ≤ 0 then s
  else
    match findKey k s.list with
    | some e => { s with list := removeKey k s.list ++ [⟨k, v, e.accessCount⟩] }
    | none =>
      let l1 := if (s.list.length : Int) ≥ s.capacity then s.list.tail else s.list
      { s with list := l1 ++ [⟨k, v, 1⟩] }

/-- Method `bool RainLru::get(Key, Value&)`: on a hit the node moves to the
back unchanged (no access-count increment appears in the source) and its value
is returned; a miss changes nothing. -/
def RainLru.getB (s : RainLruState K V) (k : K) : Option V × RainLruState K V :=
  match findKey k s.list with
  | some e => (some e.value, { s with list := removeKey k s.list ++ [e] })
  | none => (none, s)

/-- Method `Value RainLru::get(Key)`: the convenience overload returning a
default-constructed value on a miss. -/
def RainLru.getV [Inhabited V] (s : RainLruState K V) (k : K) :
    V × RainLruState K V :=
  ((RainLru.getB s k).1.getD default, (RainLru.getB s k).2)

/-- Method `RainLru::remove`. -/
def RainLru.remove (s : RainLruState K V) (k : K) : RainLruState K V :=
  { s with list := removeKey k s.list }

/-- Operations offered by the plain LRU. -/
inductive LruOp (K V : Type) where
  | putOp (k : K) (v : V)
  | getOp (k : K)
  | removeOp (k : K)

/-- State transition of one plain-LRU operation. -/
def RainLru.step (s : RainLruState K V) : LruOp K V → RainLruState K V
  | .putOp k v => RainLru.put s k v
  | .getOp k => (RainLru.getB s k).2
  | .removeOp k => RainLru.remove s k

/-- Execution of a sequence of plain-LRU operations. -/
def RainLru.run (s : RainLruState K V) (ops : List (LruOp K V)) :
    RainLruState K V :=
  ops.foldl RainLru.step s

/-- State of `RainLruK`: the inherited main `RainLru<Key, Value>`, the
threshold `k_` (an `int`; the spec constrains it to `K ≥ 2`, so it is carried
as a natural number), the history `RainLru<Key, size_t>` and the side table
`historyValueMap_`. -/
structure RainLruKState (K V : Type) where
  base : RainLruState K V
  kThreshold : Nat
  historyList : RainLruState K Nat
  historyValueMap : List (K × V)
deriving DecidableEq, Repr

/-- Constructor `RainLruK(capacity, historyCapacity, k)`. -/
def RainLruK.init (capacity historyCapacity : Int) (kThreshold : Nat) :
    RainLruKState K V :=
  ⟨RainLru.init capacity, kThreshold, RainLru.init historyCapacity, []⟩

/-- Method `Value RainLruK::get(Key)`: try the main cache, always increment
and re-store the history count, then promote from the side table when the
count reaches the threshold. -/
def RainLruK.get [Inhabited V] (s : RainLruKState K V) (key : K) :
    V × RainLruKState K V :=
  let m := RainLru.getB s.base key
  let hr := RainLru.getB s.historyList key
  let historyCount := hr.1.getD 0 + 1
  let h2 := RainLru.put hr.2 key historyCount
  match m.1 with
  | some v => (v, ⟨m.2, s.kThreshold, h2, s.historyValueMap⟩)
  | none =>
    if historyCount ≥ s.kThreshold then
      match lookupKV key s.historyValueMap with
      | some stored =>
        (stored, ⟨RainLru.put m.2 key stored, s.kThreshold,
          RainLru.remove h2 key, eraseKV key s.historyValueMap⟩)
      | none => (default, ⟨m.2, s.kThreshold, h2, s.historyValueMap⟩)
    else (default, ⟨m.2, s.kThreshold, h2, s.historyValueMap⟩)

/-- Method `RainLruK::put`: update through the main cache when present;
otherwise bump the history count, remember the value in the side table and
promote once the count reaches the threshold. -/
def RainLruK.put (s : RainLruKState K V) (key : K) (v : V) : RainLruKState K V :=
  let m := RainLru.getB s.base key
  match m.1 with
  | some _ => { s with base := RainLru.put m.2 key v }
  | none =>
    let hr := RainLru.getB s.historyList key
    let historyCount := hr.1.getD 0 + 1
    let h2 := RainLru.put hr.2 key historyCount
    let m1 := insertKV key v s.historyValueMap
    if historyCount ≥ s.kThreshold then
      ⟨RainLru.put m.2 key v, s.kThreshold, RainLru.remove h2 key,
        eraseKV key m1⟩
    else ⟨m.2, s.kThreshold, h2, m1⟩

/-- State of `RainLruHash`: the stored total capacity and slice count plus the
slice caches.  The `hardware_concurrency` fallback for a non-positive slice
count is outside the model (the claims assume `N > 0`). -/
structure RainLruHashState (K V : Type) where
  capacity : Nat
  sliceNum : Nat
  slices : List (RainLruState K V)
deriving DecidableEq, Repr

/-- Constructor `RainLruHash(capacity, sliceNum)`: every slice is a
`RainLru` of capacity `ceil(capacity / sliceNum)` (the `std::ceil` over
`double` division is exact on the integer ranges in play). -/
def RainLruHash.init (capacity sliceNum : Nat) : RainLruHashState K V :=
  ⟨capacity, sliceNum,
    List.replicate sliceNum (RainLru.init (((capacity + sliceNum - 1) / sliceNum : Nat) : Int))⟩

/-- Method `RainLruHash::put`: route to slice `hash(key) % sliceNum`. -/
def RainLruHash.put (hash : K → Nat) (s : RainLruHashState K V) (k : K) (v : V) :
    RainLruHashState K V :=
  let i := hash k % s.sliceNum
  { s with slices := s.slices.set i (RainLru.put (s.slices.getD i (RainLru.init 0)) k v) }

/-- Method `bool RainLruHash::get(Key, Value&)`. -/
def RainLruHash.getB (hash : K → Nat) (s : RainLruHashState K V) (k : K) :
    Option V × RainLruHashState K V :=
  let i := hash k % s.sliceNum
  let r := RainLru.getB (s.slices.getD i (RainLru.init 0)) k
  (r.1, { s with slices := s.slices.set i r.2 })

/-- Operations offered by the sharded LRU. -/
inductive ShardOp (K V : Type) where
  | putOp (k : K) (v : V)
  | getOp (k : K)

/-- State transition of one sharded-LRU operation. -/
def RainLruHash.step (hash : K → Nat) (s : RainLruHashState K V) :
    ShardOp K V → RainLruHashState K V
  | .putOp k v => RainLruHash.put hash s k v
  | .getOp k => (RainLruHash.getB hash s k).2

/-- Execution of a sequence of sharded-LRU operations. -/
def RainLruHash.run (hash : K → Nat) (s : RainLruHashState K V)
    (ops : List (ShardOp K V)) : RainLruHashState K V :=
  ops.foldl (RainLruHash.step hash) s

/-- Total number of resident entries across all slices. -/
def RainLruHash.totalSize (s : RainLruHashState K V) : Nat :=
  (s.slices.map (fun sl => sl.list.length)).sum

/-- State of one ARC half (`ArcLruPart` in RainArcLru.h; the frequency half
`ArcLfuPart` of the missing RainArcLfu.h uses the same state shape per the
spec): mutable live capacity, fixed ghost capacity, transform threshold, the
live map/list (front = most recently used) and the ghost key list (front =
most recently demoted). -/
structure ArcPartState (K V : Type) where
  capacity : Nat
  ghostCapacity : Nat
  transformThreshold : Nat
  main : List (LruEntry K V)
  ghost : List K
deriving DecidableEq, Repr

/-- Method `ArcLruPart::evictLeastRecent`: move the back live node onto the
ghost front (count reset is invisible for key-only ghosts), dropping the
oldest ghost first when the ghost list is full; an empty live list is a
no-op. -/
def ArcPart.evictLeastRecent (s : ArcPartState K V) : ArcPartState K V :=
  match s.main.getLast? with
  | none => s
  | some lr =>
    let g1 := if s.ghost.length ≥ s.ghostCapacity then s.ghost.dropLast else s.ghost
    { s with main := s.main.dropLast, ghost := lr.key :: g1 }

/-- Method `bool ArcLruPart::put`: zero capacity returns false; an existing
key is updated (value overwritten, moved to the front, count kept) and the
method returns `true` unconditionally; a new key evicts when full and is
inserted at the front with access count 1, again returning `true`. -/
def ArcLru.put (s : ArcPartState K V) (k : K) (v : V) : Bool × ArcPartState K V :=
  if s.capacity = 0 then (false, s)
  else
    match findKey k s.main with
    | some e => (true, { s with main := ⟨k, v, e.accessCount⟩ :: removeKey k s.main })
    | none =>
      let s1 := if s.main.length ≥ s.capacity then ArcPart.evictLeastRecent s else s
      (true, { s1 with main := ⟨k, v, 1⟩ :: s1.main })

/-- Method `bool ArcLruPart::get(Key, Value&, bool&)`: on a hit the node
moves to the front, its access count is incremented, and the out-flag reports
whether the new count reached the transform threshold. -/
def ArcLru.get (s : ArcPartState K V) (k : K) :
    Option (V × Bool) × ArcPartState K V :=
  match findKey k s.main with
  | some e =>
    (some (e.value, decide (e.accessCount + 1 ≥ s.transformThreshold)),
      { s with main := ⟨k, e.value, e.accessCount + 1⟩ :: removeKey k s.main })
  | none => (none, s)

/-- Method `ArcLruPart::checkGhost`: remove the key from the ghost list when
present and report whether it was there. -/
def ArcPart.checkGhost (s : ArcPartState K V) (k : K) : Bool × ArcPartState K V :=
  if k ∈ s.ghost then (true, { s with ghost := removeKeyG k s.ghost })
  else (false, s)

/-- Method `ArcLruPart::increaseCapacity`. -/
def ArcPart.increaseCapacity (s : ArcPartState K V) : ArcPartState K V :=
  { s with capacity := s.capacity + 1 }

/-- Method `bool ArcLruPart::decreaseCapacity`: fails at capacity 0;
otherwise evict one entry when the live list is exactly full, then decrement
the capacity. -/
def ArcPart.decreaseCapacity (s : ArcPartState K V) : Bool × ArcPartState K V :=
  if s.capacity = 0 then (false, s)
  else
    let s1 := if s.main.length = s.capacity then ArcPart.evictLeastRecent s else s
    (true, { s1 with capacity := s1.capacity - 1 })

/-- Modelled from the spec: `ArcLfuPart::put` of the missing RainArcLfu.h.
Per spec section 4.4 both halves behave as an LRU of entries with a ghost
tail; the F-half put updates an existing entry in place (move to front,
increment the access count — the increment is F-only) and reports whether the
count reached the transform threshold, and otherwise inserts a fresh node at
the front (evicting to the ghost when full) with access count 1. -/
def ArcLfu.put (s : ArcPartState K V) (k : K) (v : V) : Bool × ArcPartState K V :=
  if s.capacity = 0 then (false, s)
  else
    match findKey k s.main with
    | some e =>
      (decide (e.accessCount + 1 ≥ s.transformThreshold),
        { s with main := ⟨k, v, e.accessCount + 1⟩ :: removeKey k s.main })
    | none =>
      let s1 := if s.main.length ≥ s.capacity then ArcPart.evictLeastRecent s else s
      (decide (1 ≥ s.transformThreshold), { s1 with main := ⟨k, v, 1⟩ :: s1.main })

/-- Modelled from the spec: `ArcLfuPart::get` of the missing RainArcLfu.h.
Per spec section 4.4 an F-live hit moves the node to the front, increments
its access count and returns the value. -/
def ArcLfu.get (s : ArcPartState K V) (k : K) : Option V × ArcPartState K V :=
  match findKey k s.main with
  | some e =>
    (some e.value, { s with main := ⟨k, e.value, e.accessCount + 1⟩ :: removeKey k s.main })
  | none => (none, s)

/-- State of `RainArc` (RainArc.h): the stored construction parameters and
the two halves. -/
structure RainArcState (K V : Type) where
  capacity : Nat
  transformThreshold : Nat
  lruPart : ArcPartState K V
  lfuPart : ArcPartState K V
deriving DecidableEq, Repr

/-- Constructor `RainArc(capacity, transformThreshold)`: each half is built
with live capacity and ghost capacity both equal to the total capacity. -/
def RainArc.init (capacity transformThreshold : Nat) : RainArcState K V :=
  ⟨capacity, transformThreshold,
    ⟨capacity, capacity, transformThreshold, [], []⟩,
    ⟨capacity, capacity, transformThreshold, [], []⟩⟩

/-- Method `RainArc::checkGhostCaches`: consult the R ghost first; on a hit
shift one unit of capacity from F to R only when F can shrink.  Only when the
R ghost missed is the F ghost consulted, symmetrically. -/
def RainArc.checkGhostCaches (s : RainArcState K V) (k : K) :
    Bool × RainArcState K V :=
  let rc := ArcPart.checkGhost s.lruPart k
  if rc.1 then
    let fd := ArcPart.decreaseCapacity s.lfuPart
    let r2 := if fd.1 then ArcPart.increaseCapacity rc.2 else rc.2
    (true, { s with lruPart := r2, lfuPart := fd.2 })
  else
    let fc := ArcPart.checkGhost s.lfuPart k
    if fc.1 then
      let rd := ArcPart.decreaseCapacity s.lruPart
      let f2 := if rd.1 then ArcPart.increaseCapacity fc.2 else fc.2
      (true, { s with lruPart := rd.2, lfuPart := f2 })
    else (false, s)

/-- Method `RainArc::put`: ghost check first; a ghost hit re-admits into the
R half only, otherwise the key goes to the R half and, whenever that put
returned true, also to the F half. -/
def RainArc.put (s : RainArcState K V) (k : K) (v : V) : RainArcState K V :=
  let g := RainArc.checkGhostCaches s k
  if g.1 then
    let r := ArcLru.put g.2.lruPart k v
    { g.2 with lruPart := r.2 }
  else
    let r := ArcLru.put g.2.lruPart k v
    if r.1 then
      let f := ArcLfu.put g.2.lfuPart k v
      { g.2 with lruPart := r.2, lfuPart := f.2 }
    else { g.2 with lruPart := r.2 }

/-- Method `bool RainArc::get(Key, Value&)`: ghost check first, then the R
half (installing into F when the transform flag fires), falling back to the
F half. -/
def RainArc.getB (s : RainArcState K V) (k : K) : Option V × RainArcState K V :=
  let g := RainArc.checkGhostCaches s k
  let r := ArcLru.get g.2.lruPart k
  match r.1 with
  | some (v, st) =>
    if st then
      let f := ArcLfu.put g.2.lfuPart k v
      (some v, { g.2 with lruPart := r.2, lfuPart := f.2 })
    else (some v, { g.2 with lruPart := r.2 })
  | none =>
    let f := ArcLfu.get g.2.lfuPart k
    (f.1, { g.2 with lruPart := r.2, lfuPart := f.2 })

/-- Operations offered by the ARC cache. -/
inductive ArcOp (K V : Type) where
  | putOp (k : K) (v : V)
  | getOp (k : K)

/-- State transition of one ARC operation. -/
def RainArc.step (s : RainArcState K V) : ArcOp K V → RainArcState K V
  | .putOp k v => RainArc.put s k v
  | .getOp k => (RainArc.getB s k).2

/-- Execution of a sequence of ARC operations. -/
def RainArc.run (s : RainArcState K V) (ops : List (ArcOp K V)) :
    RainArcState K V :=
  ops.foldl RainArc.step s

/-- Iterated `get` of a fixed key (used to state that every subsequent get
keeps returning the same value). -/
def RainArc.iterGet (k : K) : Nat → RainArcState K V → RainArcState K V
  | 0, s => s
  | n + 1, s => RainArc.iterGet k n (RainArc.getB s k).2

/-! ## Basic lemmas about the list primitives -/

theorem findKey_some {k : K} {l : List (LruEntry K V)} {e : LruEntry K V}
    (h : findKey k l = some e) : e ∈ l ∧ e.key = k := by
  refine ⟨List.mem_of_find?_eq_some h, ?_⟩
  have := List.find?_some h
  simpa using this

theorem findKey_none {k : K} {l : List (LruEntry K V)}
    (h : findKey k l = none) : ∀ e ∈ l, e.key ≠ k := by
  intro e he
  have := List.find?_eq_none.mp h e he
  simpa using this

theorem findKey_eq_none {k : K} {l : List (LruEntry K V)}
    (h : ∀ e ∈ l, e.key ≠ k) : findKey k l = none := by
  apply List.find?_eq_none.mpr
  intro e he
  simpa using h e he

theorem length_filter_lt {α : Type} {p : α → Bool} {l : List α} {a : α}
    (ha : a ∈ l) (hp : p a = false) : (l.filter p).length < l.length := by
  induction l with
  | nil => cases ha
  | cons x xs ih =>
    rcases List.mem_cons.mp ha with h | h
    · subst h
      simp only [List.filter_cons, hp, List.length_cons]
      exact Nat.lt_succ_of_le (List.length_filter_le _ _)
    · by_cases hx : p x = true
      · simpa [List.filter_cons, hx] using Nat.succ_lt_succ (ih h)
      · simp only [Bool.not_eq_true] at hx
        simp only [List.filter_cons, hx, List.length_cons]
        exact Nat.lt_succ_of_lt (ih h)

theorem mem_removeKey {k : K} {l : List (LruEntry K V)} {e : LruEntry K V}
    (h : e ∈ removeKey k l) : e ∈ l ∧ e.key ≠ k := by
  have := List.mem_filter.mp h
  refine ⟨this.1, ?_⟩
  simpa using this.2

theorem length_removeKey_le (k : K) (l : List (LruEntry K V)) :
    (removeKey k l).length ≤ l.length :=
  List.length_filter_le _ _

theorem length_removeKey_lt {k : K} {l : List (LruEntry K V)} {e : LruEntry K V}
    (h : findKey k l = some e) : (removeKey k l).length < l.length := by
  rcases findKey_some h with ⟨hm, hk⟩
  exact length_filter_lt hm (by simp [hk])

theorem length_removeKeyG_le (k : K) (l : List K) :
    (removeKeyG k l).length ≤ l.length :=
  List.length_filter_le _ _

theorem mem_removeKeyG {k x : K} {l : List K} (h : x ∈ removeKeyG k l) :
    x ∈ l ∧ x ≠ k := by
  have := List.mem_filter.mp h
  refine ⟨this.1, ?_⟩
  simpa using this.2

theorem mem_of_getLast?_eq_some {α : Type} {l : List α} {a : α}
    (h : l.getLast? = some a) : a ∈ l := by
  rcases List.mem_getLast?_eq_getLast (Option.mem_def.mpr h) with ⟨hne, rfl⟩
  exact List.getLast_mem hne

/-! ## Plain LRU: behaviour of `getB` and access counts -/

theorem RainLru.getB_miss {s : RainLruState K V} {k : K}
    (h : findKey k s.list = none) : RainLru.getB s k = (none, s) := by
  simp [RainLru.getB, h]

theorem RainLru.getB_hit {s : RainLruState K V} {k : K} {e : LruEntry K V}
    (h : findKey k s.list = some e) :
    RainLru.getB s k = (some e.value, { s with list := removeKey k s.list ++ [e] }) := by
  simp [RainLru.getB, h]

theorem foldl_preserve {σ α : Type} {P : σ → Prop} {f : σ → α → σ}
    (h : ∀ s a, P s → P (f s a)) :
    ∀ (l : List α) (s : σ), P s → P (l.foldl f s) := by
  intro l
  induction l with
  | nil => intro s hs; simpa using hs
  | cons x xs ih =>
    intro s hs
    simpa using ih (f s x) (h s x hs)

theorem RainLru.step_count_one {s : RainLruState K V}
    (h : ∀ e ∈ s.list, e.accessCount = 1) (op : LruOp K V) :
    ∀ e ∈ (RainLru.step s op).list, e.accessCount = 1 := by
  cases op with
  | putOp k v =>
    simp only [RainLru.step, RainLru.put]
    split
    · exact h
    · split
      · rename_i e0 hf
        intro e he
        rcases List.mem_append.mp he with hm | hm
        · exact h e (mem_removeKey hm).1
        · rcases List.mem_singleton.mp hm with rfl
          show e0.accessCount = 1
          exact h e0 (findKey_some hf).1
      · intro e he
        rcases List.mem_append.mp he with hm | hm
        · split at hm
          · exact h e (List.mem_of_mem_tail hm)
          · exact h e hm
        · rcases List.mem_singleton.mp hm with rfl
          rfl
  | getOp k =>
    simp only [RainLru.step, RainLru.getB]
    split
    · rename_i e0 hf
      intro e he
      rcases List.mem_append.mp he with hm | hm
      · exact h e (mem_removeKey hm).1
      · rcases List.mem_singleton.mp hm with rfl
        exact h e (findKey_some hf).1
    · exact h
  | removeOp k =>
    simp only [RainLru.step, RainLru.remove]
    intro e he
    exact h e (mem_removeKey he).1

/-! ## ARC half: frame and invariant lemmas -/

theorem ArcPart.evict_frame (s : ArcPartState K V) :
    (ArcPart.evictLeastRecent s).capacity = s.capacity ∧
      (ArcPart.evictLeastRecent s).ghostCapacity = s.ghostCapacity ∧
      (ArcPart.evictLeastRecent s).transformThreshold = s.transformThreshold := by
  unfold ArcPart.evictLeastRecent
  split <;> exact ⟨rfl, rfl, rfl⟩

theorem ArcPart.evict_main_length (s : ArcPartState K V) :
    (ArcPart.evictLeastRecent s).main.length = s.main.length - 1 := by
  unfold ArcPart.evictLeastRecent
  split
  · rename_i hl
    have h0 : s.main = [] := List.getLast?_eq_none_iff.mp hl
    simp [h0]
  · simp [List.length_dropLast]

theorem ArcPart.evict_ghost_le {s : ArcPartState K V} (hg : 1 ≤ s.ghostCapacity)
    (hgl : s.ghost.length ≤ s.ghostCapacity) :
    (ArcPart.evictLeastRecent s).ghost.length ≤ s.ghostCapacity := by
  unfold ArcPart.evictLeastRecent
  split
  · exact hgl
  · simp only [List.length_cons]
    split
    · rename_i hge
      simp only [List.length_dropLast]
      omega
    · rename_i hlt
      omega

theorem ArcPart.evict_ghost_mem {s : ArcPartState K V} {x : K}
    (h : x ∈ (ArcPart.evictLeastRecent s).ghost) :
    x ∈ s.ghost ∨ ∃ e ∈ s.main, x = e.key := by
  revert h
  unfold ArcPart.evictLeastRecent
  split
  · exact fun h => Or.inl h
  · rename_i lr hlast
    intro h
    rcases List.mem_cons.mp h with h1 | h1
    · exact Or.inr ⟨lr, mem_of_getLast?_eq_some hlast, h1⟩
    · left
      revert h1
      split
      · exact fun h1 => List.dropLast_subset _ h1
      · exact fun h1 => h1

theorem ArcLru.putR_frame (s : ArcPartState K V) (k : K) (v : V) :
    (ArcLru.put s k v).2.capacity = s.capacity ∧
      (ArcLru.put s k v).2.ghostCapacity = s.ghostCapacity ∧
      (ArcLru.put s k v).2.transformThreshold = s.transformThreshold := by
  unfold ArcLru.put
  split
  · exact ⟨rfl, rfl, rfl⟩
  · split
    · exact ⟨rfl, rfl, rfl⟩
    · rcases ArcPart.evict_frame s with ⟨h1, h2, h3⟩
      simp only
      split
      · exact ⟨h1, h2, h3⟩
      · exact ⟨rfl, rfl, rfl⟩

theorem ArcLru.put_fst (s : ArcPartState K V) (k : K) (v : V) :
    (ArcLru.put s k v).1 = !(decide (s.capacity = 0)) := by
  unfold ArcLru.put
  split
  · rename_i h; simp [h]
  · rename_i h
    split <;> simp [h]

theorem ArcLru.putR_inv {s : ArcPartState K V} {k : K} {v : V}
    (hg : 1 ≤ s.ghostCapacity) (hm : s.main.length ≤ s.capacity)
    (hgl : s.ghost.length ≤ s.ghostCapacity) :
    (ArcLru.put s k v).2.main.length ≤ s.capacity ∧
      (ArcLru.put s k v).2.ghost.length ≤ s.ghostCapacity := by
  unfold ArcLru.put
  split
  · exact ⟨hm, hgl⟩
  · rename_i hc
    split
    · rename_i e hf
      constructor
      · have hlt := length_removeKey_lt hf
        simp only [List.length_cons]
        omega
      · exact hgl
    · rename_i hf
      simp only
      split
      · rename_i hge
        constructor
        · simp only [List.length_cons, ArcPart.evict_main_length]
          omega
        · exact ArcPart.evict_ghost_le hg hgl
      · rename_i hlt
        constructor
        · simp only [List.length_cons]
          omega
        · exact hgl

theorem ArcLru.getR_frame (s : ArcPartState K V) (k : K) :
    (ArcLru.get s k).2.capacity = s.capacity ∧
      (ArcLru.get s k).2.ghostCapacity = s.ghostCapacity ∧
      (ArcLru.get s k).2.transformThreshold = s.transformThreshold ∧
      (ArcLru.get s k).2.ghost = s.ghost ∧
      (ArcLru.get s k).2.main.length ≤ s.main.length := by
  unfold ArcLru.get
  split
  · rename_i e hf
    refine ⟨rfl, rfl, rfl, rfl, ?_⟩
    simpa [List.length_cons] using length_removeKey_lt hf
  · exact ⟨rfl, rfl, rfl, rfl, Nat.le_refl _⟩

theorem ArcLfu.putF_frame (s : ArcPartState K V) (k : K) (v : V) :
    (ArcLfu.put s k v).2.capacity = s.capacity ∧
      (ArcLfu.put s k v).2.ghostCapacity = s.ghostCapacity ∧
      (ArcLfu.put s k v).2.transformThreshold = s.transformThreshold := by
  unfold ArcLfu.put
  split
  · exact ⟨rfl, rfl, rfl⟩
  · split
    · exact ⟨rfl, rfl, rfl⟩
    · rcases ArcPart.evict_frame s with ⟨h1, h2, h3⟩
      simp only
      split
      · exact ⟨h1, h2, h3⟩
      · exact ⟨rfl, rfl, rfl⟩

theorem ArcLfu.putF_inv {s : ArcPartState K V} {k : K} {v : V}
    (hg : 1 ≤ s.ghostCapacity) (hm : s.main.length ≤ s.capacity)
    (hgl : s.ghost.length ≤ s.ghostCapacity) :
    (ArcLfu.put s k v).2.main.length ≤ s.capacity ∧
      (ArcLfu.put s k v).2.ghost.length ≤ s.ghostCapacity := by
  unfold ArcLfu.put
  split
  · exact ⟨hm, hgl⟩
  · rename_i hc
    split
    · rename_i e hf
      constructor
      · have hlt := length_removeKey_lt hf
        simp only [List.length_cons]
        omega
      · exact hgl
    · rename_i hf
      simp only
      split
      · rename_i hge
        constructor
        · simp only [List.length_cons, ArcPart.evict_main_length]
          omega
        · exact ArcPart.evict_ghost_le hg hgl
      · rename_i hlt
        constructor
        · simp only [List.length_cons]
          omega
        · exact hgl

theorem ArcLfu.put_ghost_not_mem {s : ArcPartState K V} {k : K} {v : V}
    (h : k ∉ s.ghost) : k ∉ (ArcLfu.put s k v).2.ghost := by
  unfold ArcLfu.put
  split
  · exact h
  · split
    · exact h
    · rename_i hf
      simp only
      split
      · rename_i hge
        intro hmem
        rcases ArcPart.evict_ghost_mem hmem with h1 | ⟨e, he, hk⟩
        · exact h h1
        · exact findKey_none hf e he (hk ▸ rfl)
      · exact h

theorem ArcLfu.getF_frame (s : ArcPartState K V) (k : K) :
    (ArcLfu.get s k).2.capacity = s.capacity ∧
      (ArcLfu.get s k).2.ghostCapacity = s.ghostCapacity ∧
      (ArcLfu.get s k).2.transformThreshold = s.transformThreshold ∧
      (ArcLfu.get s k).2.ghost = s.ghost ∧
      (ArcLfu.get s k).2.main.length ≤ s.main.length := by
  unfold ArcLfu.get
  split
  · rename_i e hf
    refine ⟨rfl, rfl, rfl, rfl, ?_⟩
    simpa [List.length_cons] using length_removeKey_lt hf
  · exact ⟨rfl, rfl, rfl, rfl, Nat.le_refl _⟩

theorem ArcPart.checkGhost_mem {s : ArcPartState K V} {k : K} (h : k ∈ s.ghost) :
    ArcPart.checkGhost s k = (true, { s with ghost := removeKeyG k s.ghost }) := by
  simp [ArcPart.checkGhost, h]

theorem ArcPart.checkGhost_not_mem {s : ArcPartState K V} {k : K} (h : k ∉ s.ghost) :
    ArcPart.checkGhost s k = (false, s) := by
  simp [ArcPart.checkGhost, h]

theorem ArcPart.decreaseCapacity_zero {s : ArcPartState K V} (h : s.capacity = 0) :
    ArcPart.decreaseCapacity s = (false, s) := by
  simp [ArcPart.decreaseCapacity, h]

theorem ArcPart.decreaseCapacity_pos {s : ArcPartState K V} (h : s.capacity ≠ 0) :
    (ArcPart.decreaseCapacity s).1 = true ∧
      (ArcPart.decreaseCapacity s).2.capacity = s.capacity - 1 ∧
      (ArcPart.decreaseCapacity s).2.ghostCapacity = s.ghostCapacity ∧
      (ArcPart.decreaseCapacity s).2.transformThreshold = s.transformThreshold := by
  unfold ArcPart.decreaseCapacity
  rcases ArcPart.evict_frame s with ⟨h1, h2, h3⟩
  rw [if_neg h]
  split
  · refine ⟨rfl, ?_, ?_, ?_⟩
    · show (ArcPart.evictLeastRecent s).capacity - 1 = s.capacity - 1
      rw [h1]
    · exact h2
    · exact h3
  · exact ⟨rfl, rfl, rfl, rfl⟩

theorem ArcPart.decreaseCapacity_inv {s : ArcPartState K V}
    (hg : 1 ≤ s.ghostCapacity) (hm : s.main.length ≤ s.capacity)
    (hgl : s.ghost.length ≤ s.ghostCapacity) :
    (ArcPart.decreaseCapacity s).2.main.length ≤
        (ArcPart.decreaseCapacity s).2.capacity ∧
      (ArcPart.decreaseCapacity s).2.ghost.length ≤ s.ghostCapacity := by
  unfold ArcPart.decreaseCapacity
  split
  · exact ⟨hm, hgl⟩
  · rename_i hc
    simp only
    split
    · rename_i heq
      rcases ArcPart.evict_frame s with ⟨h1, _, _⟩
      constructor
      · simp only [ArcPart.evict_main_length, h1]
        omega
      · exact ArcPart.evict_ghost_le hg hgl
    · rename_i hne
      refine ⟨?_, hgl⟩
      show s.main.length ≤ s.capacity - 1
      omega

theorem ArcLru.putR_capacity (s : ArcPartState K V) (k : K) (v : V) :
    (ArcLru.put s k v).2.capacity = s.capacity :=
  (ArcLru.putR_frame s k v).1

theorem ArcLfu.putF_capacity (s : ArcPartState K V) (k : K) (v : V) :
    (ArcLfu.put s k v).2.capacity = s.capacity :=
  (ArcLfu.putF_frame s k v).1

theorem ArcLru.getR_capacity (s : ArcPartState K V) (k : K) :
    (ArcLru.get s k).2.capacity = s.capacity :=
  (ArcLru.getR_frame s k).1

theorem ArcLfu.get_capacity (s : ArcPartState K V) (k : K) :
    (ArcLfu.get s k).2.capacity = s.capacity :=
  (ArcLfu.getF_frame s k).1

/-! ## ARC composite: scenario lemmas for the ghost check -/

theorem RainArc.checkGhostCaches_not_mem {s : RainArcState K V} {k : K}
    (h1 : k ∉ s.lruPart.ghost) (h2 : k ∉ s.lfuPart.ghost) :
    RainArc.checkGhostCaches s k = (false, s) := by
  unfold RainArc.checkGhostCaches
  rw [ArcPart.checkGhost_not_mem h1, ArcPart.checkGhost_not_mem h2]
  rfl

theorem RainArc.checkGhostCaches_lru_mem_zero {s : RainArcState K V} {k : K}
    (h1 : k ∈ s.lruPart.ghost) (h2 : s.lfuPart.capacity = 0) :
    RainArc.checkGhostCaches s k =
      (true, { s with lruPart := { s.lruPart with ghost := removeKeyG k s.lruPart.ghost } }) := by
  unfold RainArc.checkGhostCaches
  rw [ArcPart.checkGhost_mem h1, ArcPart.decreaseCapacity_zero h2]
  rfl

theorem RainArc.checkGhostCaches_lru_mem_pos {s : RainArcState K V} {k : K}
    (h1 : k ∈ s.lruPart.ghost) (h2 : s.lfuPart.capacity ≠ 0) :
    RainArc.checkGhostCaches s k =
      (true,
        { s with
            lruPart := ArcPart.increaseCapacity
              { s.lruPart with ghost := removeKeyG k s.lruPart.ghost },
            lfuPart := (ArcPart.decreaseCapacity s.lfuPart).2 }) := by
  have hfd := (ArcPart.decreaseCapacity_pos (s := s.lfuPart) h2).1
  unfold RainArc.checkGhostCaches
  rw [ArcPart.checkGhost_mem h1]
  simp [hfd, ArcPart.increaseCapacity]

theorem RainArc.checkGhostCaches_lfu_mem_zero {s : RainArcState K V} {k : K}
    (h0 : k ∉ s.lruPart.ghost) (h1 : k ∈ s.lfuPart.ghost)
    (h2 : s.lruPart.capacity = 0) :
    RainArc.checkGhostCaches s k =
      (true, { s with lfuPart := { s.lfuPart with ghost := removeKeyG k s.lfuPart.ghost } }) := by
  unfold RainArc.checkGhostCaches
  rw [ArcPart.checkGhost_not_mem h0, ArcPart.checkGhost_mem h1,
    ArcPart.decreaseCapacity_zero h2]
  rfl

theorem RainArc.checkGhostCaches_lfu_mem_pos {s : RainArcState K V} {k : K}
    (h0 : k ∉ s.lruPart.ghost) (h1 : k ∈ s.lfuPart.ghost)
    (h2 : s.lruPart.capacity ≠ 0) :
    RainArc.checkGhostCaches s k =
      (true,
        { s with
            lruPart := (ArcPart.decreaseCapacity s.lruPart).2,
            lfuPart := ArcPart.increaseCapacity
              { s.lfuPart with ghost := removeKeyG k s.lfuPart.ghost } }) := by
  have hrd := (ArcPart.decreaseCapacity_pos (s := s.lruPart) h2).1
  unfold RainArc.checkGhostCaches
  rw [ArcPart.checkGhost_not_mem h0, ArcPart.checkGhost_mem h1]
  simp [hrd, ArcPart.increaseCapacity]

theorem RainArc.checkGhostCaches_capacity_sum (s : RainArcState K V) (k : K) :
    (RainArc.checkGhostCaches s k).2.lruPart.capacity +
        (RainArc.checkGhostCaches s k).2.lfuPart.capacity =
      s.lruPart.capacity + s.lfuPart.capacity := by
  by_cases h1 : k ∈ s.lruPart.ghost
  · by_cases h2 : s.lfuPart.capacity = 0
    · rw [RainArc.checkGhostCaches_lru_mem_zero h1 h2]
    · rw [RainArc.checkGhostCaches_lru_mem_pos h1 h2]
      have hd := (ArcPart.decreaseCapacity_pos h2).2.1
      show s.lruPart.capacity + 1 + (ArcPart.decreaseCapacity s.lfuPart).2.capacity = _
      rw [hd]
      omega
  · by_cases h3 : k ∈ s.lfuPart.ghost
    · by_cases h2 : s.lruPart.capacity = 0
      · rw [RainArc.checkGhostCaches_lfu_mem_zero h1 h3 h2]
      · rw [RainArc.checkGhostCaches_lfu_mem_pos h1 h3 h2]
        have hd := (ArcPart.decreaseCapacity_pos h2).2.1
        show (ArcPart.decreaseCapacity s.lruPart).2.capacity + (s.lfuPart.capacity + 1) = _
        rw [hd]
        omega
    · rw [RainArc.checkGhostCaches_not_mem h1 h3]

theorem RainArc.put_capacities (s : RainArcState K V) (k : K) (v : V) :
    (RainArc.put s k v).lruPart.capacity =
        (RainArc.checkGhostCaches s k).2.lruPart.capacity ∧
      (RainArc.put s k v).lfuPart.capacity =
        (RainArc.checkGhostCaches s k).2.lfuPart.capacity := by
  cases hb : (RainArc.checkGhostCaches s k).1 <;>
    cases hr : (ArcLru.put (RainArc.checkGhostCaches s k).2.lruPart k v).1 <;>
      simp [RainArc.put, hb, hr, ArcLru.putR_capacity, ArcLfu.putF_capacity]

theorem RainArc.getB_capacities (s : RainArcState K V) (k : K) :
    (RainArc.getB s k).2.lruPart.capacity =
        (RainArc.checkGhostCaches s k).2.lruPart.capacity ∧
      (RainArc.getB s k).2.lfuPart.capacity =
        (RainArc.checkGhostCaches s k).2.lfuPart.capacity := by
  rcases hr : (ArcLru.get (RainArc.checkGhostCaches s k).2.lruPart k).1 with _ | ⟨v, st⟩
  · simp [RainArc.getB, hr, ArcLru.getR_capacity, ArcLfu.get_capacity]
  · cases st <;>
      simp [RainArc.getB, hr, ArcLru.getR_capacity, ArcLfu.putF_capacity]

theorem ArcLru.put_zero {s : ArcPartState K V} {k : K} {v : V}
    (h : s.capacity = 0) : ArcLru.put s k v = (false, s) := by
  simp [ArcLru.put, h]

theorem ArcLru.getR_miss {s : ArcPartState K V} {k : K}
    (h : findKey k s.main = none) : ArcLru.get s k = (none, s) := by
  simp [ArcLru.get, h]

theorem ArcLru.get_hit {s : ArcPartState K V} {k : K} {e : LruEntry K V}
    (h : findKey k s.main = some e) :
    ArcLru.get s k =
      (some (e.value, decide (e.accessCount + 1 ≥ s.transformThreshold)),
        { s with main := ⟨k, e.value, e.accessCount + 1⟩ :: removeKey k s.main }) := by
  simp [ArcLru.get, h]

theorem ArcLfu.getF_miss {s : ArcPartState K V} {k : K}
    (h : findKey k s.main = none) : ArcLfu.get s k = (none, s) := by
  simp [ArcLfu.get, h]

theorem RainArc.checkGhostCaches_inv {cT : Nat} (hcT : 1 ≤ cT)
    {s : RainArcState K V} {k : K}
    (h1 : s.lruPart.ghostCapacity = cT) (h2 : s.lfuPart.ghostCapacity = cT)
    (h3 : s.lruPart.main.length ≤ s.lruPart.capacity)
    (h4 : s.lruPart.ghost.length ≤ cT)
    (h5 : s.lfuPart.main.length ≤ s.lfuPart.capacity)
    (h6 : s.lfuPart.ghost.length ≤ cT) :
    (RainArc.checkGhostCaches s k).2.lruPart.ghostCapacity = cT ∧
      (RainArc.checkGhostCaches s k).2.lfuPart.ghostCapacity = cT ∧
      (RainArc.checkGhostCaches s k).2.lruPart.main.length ≤
        (RainArc.checkGhostCaches s k).2.lruPart.capacity ∧
      (RainArc.checkGhostCaches s k).2.lruPart.ghost.length ≤ cT ∧
      (RainArc.checkGhostCaches s k).2.lfuPart.main.length ≤
        (RainArc.checkGhostCaches s k).2.lfuPart.capacity ∧
      (RainArc.checkGhostCaches s k).2.lfuPart.ghost.length ≤ cT := by
  by_cases hm1 : k ∈ s.lruPart.ghost
  · by_cases hz : s.lfuPart.capacity = 0
    · rw [RainArc.checkGhostCaches_lru_mem_zero hm1 hz]
      exact ⟨h1, h2, h3, le_trans (length_removeKeyG_le _ _) h4, h5, h6⟩
    · rw [RainArc.checkGhostCaches_lru_mem_pos hm1 hz]
      have hdec := ArcPart.decreaseCapacity_inv (by rw [h2]; exact hcT) h5
        (by rw [h2]; exact h6)
      have hdgc := (ArcPart.decreaseCapacity_pos hz).2.2.1
      refine ⟨h1, ?_, ?_, le_trans (length_removeKeyG_le _ _) h4, hdec.1, ?_⟩
      · show (ArcPart.decreaseCapacity s.lfuPart).2.ghostCapacity = cT
        rw [hdgc, h2]
      · show s.lruPart.main.length ≤ s.lruPart.capacity + 1
        omega
      · show (ArcPart.decreaseCapacity s.lfuPart).2.ghost.length ≤ cT
        rw [← h2]
        exact hdec.2
  · by_cases hm2 : k ∈ s.lfuPart.ghost
    · by_cases hz : s.lruPart.capacity = 0
      · rw [RainArc.checkGhostCaches_lfu_mem_zero hm1 hm2 hz]
        exact ⟨h1, h2, h3, h4, h5, le_trans (length_removeKeyG_le _ _) h6⟩
      · rw [RainArc.checkGhostCaches_lfu_mem_pos hm1 hm2 hz]
        have hdec := ArcPart.decreaseCapacity_inv (by rw [h1]; exact hcT) h3
          (by rw [h1]; exact h4)
        have hdgc := (ArcPart.decreaseCapacity_pos hz).2.2.1
        refine ⟨?_, h2, hdec.1, ?_, ?_, le_trans (length_removeKeyG_le _ _) h6⟩
        · show (ArcPart.decreaseCapacity s.lruPart).2.ghostCapacity = cT
          rw [hdgc, h1]
        · show (ArcPart.decreaseCapacity s.lruPart).2.ghost.length ≤ cT
          rw [← h1]
          exact hdec.2
        · show s.lfuPart.main.length ≤ s.lfuPart.capacity + 1
          omega
    · rw [RainArc.checkGhostCaches_not_mem hm1 hm2]
      exact ⟨h1, h2, h3, h4, h5, h6⟩

theorem RainArc.put_case_ghost {s : RainArcState K V} {k : K} (v : V)
    (hb : (RainArc.checkGhostCaches s k).1 = true) :
    RainArc.put s k v =
      { (RainArc.checkGhostCaches s k).2 with
        lruPart := (ArcLru.put (RainArc.checkGhostCaches s k).2.lruPart k v).2 } := by
  simp [RainArc.put, hb]

theorem RainArc.put_case_both {s : RainArcState K V} {k : K} (v : V)
    (hb : (RainArc.checkGhostCaches s k).1 = false)
    (hr : (ArcLru.put (RainArc.checkGhostCaches s k).2.lruPart k v).1 = true) :
    RainArc.put s k v =
      { (RainArc.checkGhostCaches s k).2 with
        lruPart := (ArcLru.put (RainArc.checkGhostCaches s k).2.lruPart k v).2,
        lfuPart := (ArcLfu.put (RainArc.checkGhostCaches s k).2.lfuPart k v).2 } := by
  simp [RainArc.put, hb, hr]

theorem RainArc.put_case_rejected {s : RainArcState K V} {k : K} (v : V)
    (hb : (RainArc.checkGhostCaches s k).1 = false)
    (hr : (ArcLru.put (RainArc.checkGhostCaches s k).2.lruPart k v).1 = false) :
    RainArc.put s k v =
      { (RainArc.checkGhostCaches s k).2 with
        lruPart := (ArcLru.put (RainArc.checkGhostCaches s k).2.lruPart k v).2 } := by
  simp [RainArc.put, hb, hr]

theorem RainArc.getB_case_miss {s : RainArcState K V} {k : K}
    (hr : (ArcLru.get (RainArc.checkGhostCaches s k).2.lruPart k).1 = none) :
    RainArc.getB s k =
      ((ArcLfu.get (RainArc.checkGhostCaches s k).2.lfuPart k).1,
        { (RainArc.checkGhostCaches s k).2 with
          lruPart := (ArcLru.get (RainArc.checkGhostCaches s k).2.lruPart k).2,
          lfuPart := (ArcLfu.get (RainArc.checkGhostCaches s k).2.lfuPart k).2 }) := by
  simp [RainArc.getB, hr]

theorem RainArc.getB_case_hit_low {s : RainArcState K V} {k : K} {v0 : V}
    (hr : (ArcLru.get (RainArc.checkGhostCaches s k).2.lruPart k).1 = some (v0, false)) :
    RainArc.getB s k =
      (some v0,
        { (RainArc.checkGhostCaches s k).2 with
          lruPart := (ArcLru.get (RainArc.checkGhostCaches s k).2.lruPart k).2 }) := by
  simp [RainArc.getB, hr]

theorem RainArc.getB_case_hit_high {s : RainArcState K V} {k : K} {v0 : V}
    (hr : (ArcLru.get (RainArc.checkGhostCaches s k).2.lruPart k).1 = some (v0, true)) :
    RainArc.getB s k =
      (some v0,
        { (RainArc.checkGhostCaches s k).2 with
          lruPart := (ArcLru.get (RainArc.checkGhostCaches s k).2.lruPart k).2,
          lfuPart := (ArcLfu.put (RainArc.checkGhostCaches s k).2.lfuPart k v0).2 }) := by
  simp [RainArc.getB, hr]

theorem RainArc.step_inv {cT : Nat} (hcT : 1 ≤ cT) {s : RainArcState K V}
    (h1 : s.lruPart.ghostCapacity = cT) (h2 : s.lfuPart.ghostCapacity = cT)
    (h3 : s.lruPart.main.length ≤ s.lruPart.capacity)
    (h4 : s.lruPart.ghost.length ≤ cT)
    (h5 : s.lfuPart.main.length ≤ s.lfuPart.capacity)
    (h6 : s.lfuPart.ghost.length ≤ cT) (op : ArcOp K V) :
    (RainArc.step s op).lruPart.ghostCapacity = cT ∧
      (RainArc.step s op).lfuPart.ghostCapacity = cT ∧
      (RainArc.step s op).lruPart.main.length ≤ (RainArc.step s op).lruPart.capacity ∧
      (RainArc.step s op).lruPart.ghost.length ≤ cT ∧
      (RainArc.step s op).lfuPart.main.length ≤ (RainArc.step s op).lfuPart.capacity ∧
      (RainArc.step s op).lfuPart.ghost.length ≤ cT := by
  cases op with
  | putOp k v =>
    obtain ⟨g1, g2, g3, g4, g5, g6⟩ :=
      RainArc.checkGhostCaches_inv hcT h1 h2 h3 h4 h5 h6 (k := k)
    have hR := ArcLru.putR_inv (k := k) (v := v) (by rw [g1]; exact hcT) g3
      (by rw [g1]; exact g4)
    have hRf := ArcLru.putR_frame (RainArc.checkGhostCaches s k).2.lruPart k v
    have hF := ArcLfu.putF_inv (k := k) (v := v) (by rw [g2]; exact hcT) g5
      (by rw [g2]; exact g6)
    have hFf := ArcLfu.putF_frame (RainArc.checkGhostCaches s k).2.lfuPart k v
    have e1 : (ArcLru.put (RainArc.checkGhostCaches s k).2.lruPart k v).2.ghostCapacity = cT := by
      rw [hRf.2.1, g1]
    have e3 : (ArcLru.put (RainArc.checkGhostCaches s k).2.lruPart k v).2.main.length ≤
        (ArcLru.put (RainArc.checkGhostCaches s k).2.lruPart k v).2.capacity := by
      rw [hRf.1]; exact hR.1
    have e4 : (ArcLru.put (RainArc.checkGhostCaches s k).2.lruPart k v).2.ghost.length ≤ cT := by
      have h := hR.2; rw [g1] at h; exact h
    have f2 : (ArcLfu.put (RainArc.checkGhostCaches s k).2.lfuPart k v).2.ghostCapacity = cT := by
      rw [hFf.2.1, g2]
    have f5 : (ArcLfu.put (RainArc.checkGhostCaches s k).2.lfuPart k v).2.main.length ≤
        (ArcLfu.put (RainArc.checkGhostCaches s k).2.lfuPart k v).2.capacity := by
      rw [hFf.1]; exact hF.1
    have f6 : (ArcLfu.put (RainArc.checkGhostCaches s k).2.lfuPart k v).2.ghost.length ≤ cT := by
      have h := hF.2; rw [g2] at h; exact h
    show (RainArc.put s k v).lruPart.ghostCapacity = cT ∧
      (RainArc.put s k v).lfuPart.ghostCapacity = cT ∧
      (RainArc.put s k v).lruPart.main.length ≤ (RainArc.put s k v).lruPart.capacity ∧
      (RainArc.put s k v).lruPart.ghost.length ≤ cT ∧
      (RainArc.put s k v).lfuPart.main.length ≤ (RainArc.put s k v).lfuPart.capacity ∧
      (RainArc.put s k v).lfuPart.ghost.length ≤ cT
    cases hb : (RainArc.checkGhostCaches s k).1 with
    | true =>
      rw [RainArc.put_case_ghost v hb]
      exact ⟨e1, g2, e3, e4, g5, g6⟩
    | false =>
      cases hr : (ArcLru.put (RainArc.checkGhostCaches s k).2.lruPart k v).1 with
      | true =>
        rw [RainArc.put_case_both v hb hr]
        exact ⟨e1, f2, e3, e4, f5, f6⟩
      | false =>
        rw [RainArc.put_case_rejected v hb hr]
        exact ⟨e1, g2, e3, e4, g5, g6⟩
  | getOp k =>
    obtain ⟨g1, g2, g3, g4, g5, g6⟩ :=
      RainArc.checkGhostCaches_inv hcT h1 h2 h3 h4 h5 h6 (k := k)
    have hRf := ArcLru.getR_frame (RainArc.checkGhostCaches s k).2.lruPart k
    have hFg := ArcLfu.getF_frame (RainArc.checkGhostCaches s k).2.lfuPart k
    have e1 : (ArcLru.get (RainArc.checkGhostCaches s k).2.lruPart k).2.ghostCapacity = cT := by
      rw [hRf.2.1, g1]
    have e3 : (ArcLru.get (RainArc.checkGhostCaches s k).2.lruPart k).2.main.length ≤
        (ArcLru.get (RainArc.checkGhostCaches s k).2.lruPart k).2.capacity := by
      rw [hRf.1]; exact le_trans hRf.2.2.2.2 g3
    have e4 : (ArcLru.get (RainArc.checkGhostCaches s k).2.lruPart k).2.ghost.length ≤ cT := by
      rw [hRf.2.2.2.1]; exact g4
    show ((RainArc.getB s k).2.lruPart.ghostCapacity = cT ∧
      (RainArc.getB s k).2.lfuPart.ghostCapacity = cT ∧
      (RainArc.getB s k).2.lruPart.main.length ≤ (RainArc.getB s k).2.lruPart.capacity ∧
      (RainArc.getB s k).2.lruPart.ghost.length ≤ cT ∧
      (RainArc.getB s k).2.lfuPart.main.length ≤ (RainArc.getB s k).2.lfuPart.capacity ∧
      (RainArc.getB s k).2.lfuPart.ghost.length ≤ cT)
    rcases hr : (ArcLru.get (RainArc.checkGhostCaches s k).2.lruPart k).1 with _ | ⟨v0, st⟩
    · rw [RainArc.getB_case_miss hr]
      refine ⟨e1, by rw [hFg.2.1, g2], e3, e4,
        by rw [hFg.1]; exact le_trans hFg.2.2.2.2 g5,
        by rw [hFg.2.2.2.1]; exact g6⟩
    · cases st with
      | false =>
        rw [RainArc.getB_case_hit_low hr]
        exact ⟨e1, g2, e3, e4, g5, g6⟩
      | true =>
        have hF := ArcLfu.putF_inv (k := k) (v := v0) (by rw [g2]; exact hcT) g5
          (by rw [g2]; exact g6)
        have hFf := ArcLfu.putF_frame (RainArc.checkGhostCaches s k).2.lfuPart k v0
        rw [RainArc.getB_case_hit_high hr]
        refine ⟨e1, by rw [hFf.2.1, g2], e3, e4,
          by rw [hFf.1]; exact hF.1,
          by have h := hF.2; rw [g2] at h; exact h⟩

theorem RainArc.step_init_zero (t : Nat) (op : ArcOp K V) :
    RainArc.step (RainArc.init 0 t) op = RainArc.init 0 t := by
  cases op with
  | putOp k v =>
    have hg := RainArc.checkGhostCaches_not_mem
      (s := (RainArc.init 0 t : RainArcState K V)) (k := k)
      (List.not_mem_nil _) (List.not_mem_nil _)
    show RainArc.put (RainArc.init 0 t) k v = RainArc.init 0 t
    simp only [RainArc.put, hg,
      ArcLru.put_zero (s := (RainArc.init 0 t : RainArcState K V).lruPart) rfl]
    rfl
  | getOp k =>
    have hg := RainArc.checkGhostCaches_not_mem
      (s := (RainArc.init 0 t : RainArcState K V)) (k := k)
      (List.not_mem_nil _) (List.not_mem_nil _)
    show (RainArc.getB (RainArc.init 0 t) k).2 = RainArc.init 0 t
    simp only [RainArc.getB, hg,
      ArcLru.getR_miss (s := (RainArc.init 0 t : RainArcState K V).lruPart) (k := k) rfl,
      ArcLfu.getF_miss (s := (RainArc.init 0 t : RainArcState K V).lfuPart) (k := k) rfl]

/-! ## Plain LRU: capacity and length bookkeeping -/

theorem RainLru.put_capacity (s : RainLruState K V) (k : K) (v : V) :
    (RainLru.put s k v).capacity = s.capacity := by
  unfold RainLru.put
  split
  · rfl
  · split <;> rfl

theorem RainLru.getB_capacity (s : RainLruState K V) (k : K) :
    (RainLru.getB s k).2.capacity = s.capacity := by
  unfold RainLru.getB
  split <;> rfl

theorem RainLru.remove_capacity (s : RainLruState K V) (k : K) :
    (RainLru.remove s k).capacity = s.capacity := rfl

theorem RainLru.put_length {s : RainLruState K V} {k : K} {v : V}
    (hl : (s.list.length : Int) ≤ s.capacity) :
    ((RainLru.put s k v).list.length : Int) ≤ s.capacity := by
  unfold RainLru.put
  split
  · exact hl
  · rename_i hpos
    split
    · rename_i e hf
      have hlt := length_removeKey_lt hf
      simp only [List.length_append, List.length_singleton]
      omega
    · rename_i hf
      simp only
      split
      · rename_i hge
        simp only [List.length_append, List.length_singleton, List.length_tail]
        omega
      · rename_i hlt2
        simp only [List.length_append, List.length_singleton]
        omega

theorem RainLru.getB_length (s : RainLruState K V) (k : K) :
    (RainLru.getB s k).2.list.length ≤ s.list.length := by
  unfold RainLru.getB
  split
  · rename_i e hf
    have hlt := length_removeKey_lt hf
    simp only [List.length_append, List.length_singleton]
    omega
  · exact Nat.le_refl _

theorem RainLru.remove_length (s : RainLruState K V) (k : K) :
    (RainLru.remove s k).list.length ≤ s.list.length :=
  List.length_filter_le _ _

theorem RainLru.run_inv {c : Int} (ops : List (LruOp K V)) (s : RainLruState K V)
    (hcap : s.capacity = c) (hlen : (s.list.length : Int) ≤ c) :
    (RainLru.run s ops).capacity = c ∧
      ((RainLru.run s ops).list.length : Int) ≤ c := by
  refine foldl_preserve
    (P := fun x : RainLruState K V => x.capacity = c ∧ ((x.list.length : Int) ≤ c))
    ?_ ops s ⟨hcap, hlen⟩
  intro s1 op ⟨hc1, hl1⟩
  cases op with
  | putOp k v =>
    constructor
    · show (RainLru.put s1 k v).capacity = c
      rw [RainLru.put_capacity, hc1]
    · show ((RainLru.put s1 k v).list.length : Int) ≤ c
      rw [← hc1]
      exact RainLru.put_length (by rw [hc1]; exact hl1)
  | getOp k =>
    constructor
    · show (RainLru.getB s1 k).2.capacity = c
      rw [RainLru.getB_capacity, hc1]
    · have h := RainLru.getB_length s1 k
      show (((RainLru.getB s1 k).2).list.length : Int) ≤ c
      omega
  | removeOp k =>
    constructor
    · show (RainLru.remove s1 k).capacity = c
      rw [RainLru.remove_capacity, hc1]
    · have h := RainLru.remove_length s1 k
      show (((RainLru.remove s1 k)).list.length : Int) ≤ c
      omega

theorem RainLru.mem_put {s : RainLruState K V} {k : K} {v : V} {e : LruEntry K V}
    (he : e ∈ (RainLru.put s k v).list) : e ∈ s.list ∨ e.key = k := by
  revert he
  unfold RainLru.put
  split
  · exact fun he => Or.inl he
  · split
    · intro he
      rcases List.mem_append.mp he with hm | hm
      · exact Or.inl (mem_removeKey hm).1
      · rcases List.mem_singleton.mp hm with rfl
        exact Or.inr rfl
    · intro he
      rcases List.mem_append.mp he with hm | hm
      · revert hm
        split
        · exact fun hm => Or.inl (List.mem_of_mem_tail hm)
        · exact fun hm => Or.inl hm
      · rcases List.mem_singleton.mp hm with rfl
        exact Or.inr rfl

/-! ## LRU-K helpers -/

theorem RainLruK.put_miss_below {s : RainLruKState K V} {key : K} {v : V}
    (hmiss : findKey key s.base.list = none)
    (hcnt : (RainLru.getB s.historyList key).1.getD 0 + 1 < s.kThreshold) :
    RainLruK.put s key v =
      ⟨s.base, s.kThreshold,
        RainLru.put (RainLru.getB s.historyList key).2 key
          ((RainLru.getB s.historyList key).1.getD 0 + 1),
        insertKV key v s.historyValueMap⟩ := by
  have hm := RainLru.getB_miss hmiss
  have hx : ¬ ((RainLru.getB s.historyList key).1.getD 0 + 1 ≥ s.kThreshold) :=
    Nat.not_le_of_lt hcnt
  simp only [RainLruK.put, hm]
  simp [hx]

theorem RainLruK.get_miss_below [Inhabited V] {s : RainLruKState K V} {key : K}
    (hmiss : findKey key s.base.list = none)
    (hcnt : (RainLru.getB s.historyList key).1.getD 0 + 1 < s.kThreshold) :
    RainLruK.get s key =
      (default, ⟨s.base, s.kThreshold,
        RainLru.put (RainLru.getB s.historyList key).2 key
          ((RainLru.getB s.historyList key).1.getD 0 + 1),
        s.historyValueMap⟩) := by
  have hm := RainLru.getB_miss hmiss
  have hx : ¬ ((RainLru.getB s.historyList key).1.getD 0 + 1 ≥ s.kThreshold) :=
    Nat.not_le_of_lt hcnt
  simp only [RainLruK.get, hm]
  simp [hx]

theorem insertKV_length_fresh {k : K} {v : V} {l : List (K × V)}
    (h : ∀ p ∈ l, p.1 ≠ k) : (insertKV k v l).length = l.length + 1 := by
  induction l with
  | nil => rfl
  | cons q qs ih =>
    have hq : q.1 ≠ k := h q (List.mem_cons_self _ _)
    simp only [insertKV, if_neg hq, List.length_cons]
    rw [ih (fun p hp => h p (List.mem_cons_of_mem _ hp))]

theorem mem_insertKV {k : K} {v : V} {l : List (K × V)} {p : K × V}
    (h : p ∈ insertKV k v l) : p = (k, v) ∨ p ∈ l := by
  induction l with
  | nil => simpa [insertKV] using h
  | cons q qs ih =>
    simp only [insertKV] at h
    split at h
    · rcases List.mem_cons.mp h with h1 | h1
      · exact Or.inl h1
      · exact Or.inr (List.mem_cons_of_mem _ h1)
    · rcases List.mem_cons.mp h with h1 | h1
      · subst h1
        exact Or.inr (List.mem_cons_self _ _)
      · rcases ih h1 with h2 | h2
        · exact Or.inl h2
        · exact Or.inr (List.mem_cons_of_mem _ h2)

theorem lruK_distinct_puts_invariant (n : Nat) :
    ((List.range n).foldl (fun s i => RainLruK.put s i i)
        (RainLruK.init 1 1 2 : RainLruKState Nat Nat)).base.list = [] ∧
      ((List.range n).foldl (fun s i => RainLruK.put s i i)
        (RainLruK.init 1 1 2 : RainLruKState Nat Nat)).kThreshold = 2 ∧
      ((List.range n).foldl (fun s i => RainLruK.put s i i)
        (RainLruK.init 1 1 2 : RainLruKState Nat Nat)).historyValueMap.length = n ∧
      (∀ p ∈ ((List.range n).foldl (fun s i => RainLruK.put s i i)
        (RainLruK.init 1 1 2 : RainLruKState Nat Nat)).historyValueMap, p.1 < n) ∧
      (∀ e ∈ ((List.range n).foldl (fun s i => RainLruK.put s i i)
        (RainLruK.init 1 1 2 : RainLruKState Nat Nat)).historyList.list, e.key < n) := by
  induction n with
  | zero =>
    refine ⟨rfl, rfl, rfl, ?_, ?_⟩
    · intro p hp
      exact absurd hp (List.not_mem_nil p)
    · intro e he
      exact absurd he (List.not_mem_nil e)
  | succ n ih =>
    obtain ⟨hb, hk, hlen, hmap, hhist⟩ := ih
    rw [List.range_succ, List.foldl_append, List.foldl_cons, List.foldl_nil]
    have hmiss : findKey (n : Nat)
        ((List.range n).foldl (fun s i => RainLruK.put s i i)
          (RainLruK.init 1 1 2 : RainLruKState Nat Nat)).base.list = none := by
      rw [hb]; rfl
    have hhmiss : findKey (n : Nat)
        ((List.range n).foldl (fun s i => RainLruK.put s i i)
          (RainLruK.init 1 1 2 : RainLruKState Nat Nat)).historyList.list = none :=
      findKey_eq_none (fun e he => Nat.ne_of_lt (hhist e he))
    have hgb := RainLru.getB_miss hhmiss
    have hcnt : (RainLru.getB ((List.range n).foldl (fun s i => RainLruK.put s i i)
        (RainLruK.init 1 1 2 : RainLruKState Nat Nat)).historyList n).1.getD 0 + 1 <
        ((List.range n).foldl (fun s i => RainLruK.put s i i)
          (RainLruK.init 1 1 2 : RainLruKState Nat Nat)).kThreshold := by
      rw [hgb, hk]
      simp
    rw [RainLruK.put_miss_below hmiss hcnt]
    have hfresh : ∀ p ∈ ((List.range n).foldl (fun s i => RainLruK.put s i i)
        (RainLruK.init 1 1 2 : RainLruKState Nat Nat)).historyValueMap, p.1 ≠ n :=
      fun p hp => Nat.ne_of_lt (hmap p hp)
    refine ⟨hb, hk, ?_, ?_, ?_⟩
    · show (insertKV (n : Nat) n _).length = n + 1
      rw [insertKV_length_fresh hfresh, hlen]
    · intro p hp
      rcases mem_insertKV hp with h | h
      · rw [h]
        exact Nat.lt_succ_self n
      · exact Nat.lt_succ_of_lt (hmap p h)
    · intro e he
      rcases RainLru.mem_put he with h | h
      · rw [hgb] at h
        exact Nat.lt_succ_of_lt (hhist e h)
      · rw [h]
        exact Nat.lt_succ_self n

/-- Claim C3 counterexample: in the plain LRU the entry for key 1 still has
access count 1 (not 2) after a `get`-hit, because `RainLru::get` never calls
`incrementAccessCount`. -/
theorem claim_C3_counterexample :
    (findKey 1 ((RainLru.getB (RainLru.put (RainLru.init 2 : RainLruState Nat Nat) 1 10) 1).2).list).map
        (fun e => e.accessCount) = some 1 ∧
      (findKey 1 ((RainLru.getB (RainLru.put (RainLru.init 2 : RainLruState Nat Nat) 1 10) 1).2).list).map
        (fun e => e.accessCount) ≠ some 2 := by
  decide

/-- Claim C3 (amended): in the plain LRU the access counter is never
incremented at all — every entry of every reachable state has access count
exactly 1; neither `get` nor `put` changes it. -/
theorem claim_C3_access_count_never_incremented (c : Int)
    (ops : List (LruOp Nat Nat)) (e : LruEntry Nat Nat)
    (he : e ∈ (RainLru.run (RainLru.init c) ops).list) : e.accessCount = 1 := by
  have h := foldl_preserve (P := fun s : RainLruState Nat Nat => ∀ x ∈ s.list, x.accessCount = 1)
    (f := RainLru.step) (fun s op hs => RainLru.step_count_one hs op) ops
    (RainLru.init c) (by intro x hx; cases hx)
  exact h e he

/-- Claim C3 witness. -/
theorem claim_C3_witness :
    (⟨1, 10, 1⟩ : LruEntry Nat Nat) ∈
        (RainLru.run (RainLru.init 2) [LruOp.putOp 1 10, LruOp.getOp 1]).list ∧
      (⟨1, 10, 1⟩ : LruEntry Nat Nat).accessCount = 1 :=
  ⟨by decide,
    claim_C3_access_count_never_incremented 2 [LruOp.putOp 1 10, LruOp.getOp 1]
      ⟨1, 10, 1⟩ (by decide)⟩

/-- Claim C4 counterexample: for LRU-K with K=2, main capacity 2, history
capacity 4, after `put(1, 10)` the very first `get(1)` already returns the
stored value 10, not the default-constructed value 0: the put left the
history count at 1, so the first get raises it to 2 = K and promotes. -/
theorem claim_C4_counterexample :
    (RainLruK.get (RainLruK.put (RainLruK.init 2 4 2 : RainLruKState Nat Nat) 1 10) 1).1 ≠
      (default : Nat) := by
  decide

/-- Claim C4 (amended): after `put(1, 10)` in LRU-K (K=2, capacity 2,
history 4) the main cache does not contain key 1, but already the first
subsequent `get(1)` returns 10 and promotes the key into the main cache; a
second `get(1)` then also returns 10 (from the main cache). -/
theorem claim_C4_first_get_promotes :
    findKey 1 (RainLruK.put (RainLruK.init 2 4 2 : RainLruKState Nat Nat) 1 10).base.list = none ∧
      (RainLruK.get (RainLruK.put (RainLruK.init 2 4 2 : RainLruKState Nat Nat) 1 10) 1).1 = 10 ∧
      findKey 1 (RainLruK.get (RainLruK.put (RainLruK.init 2 4 2 : RainLruKState Nat Nat) 1 10) 1).2.base.list =
        some ⟨1, 10, 1⟩ ∧
      (RainLruK.get (RainLruK.get (RainLruK.put (RainLruK.init 2 4 2 : RainLruKState Nat Nat) 1 10) 1).2 1).1 = 10 := by
  decide

/-- Claim C5 counterexample: a missing `get(1)` on a freshly constructed
LRU-K mutates the history LRU — afterwards the history list holds key 1 with
count 1, whereas it was empty before. -/
theorem claim_C5_counterexample :
    (RainLruK.get (RainLruK.init 2 4 2 : RainLruKState Nat Nat) 1).2.historyList.list =
        [⟨1, 1, 1⟩] ∧
      (RainLruK.init 2 4 2 : RainLruKState Nat Nat).historyList.list = [] := by
  decide

/-- Claim C5 (amended): the plain LRU convenience `get` does not mutate any
state on a miss, but LRU-K's `get` always writes the incremented history
count back into the history LRU; on a miss whose updated count is still
below the threshold it returns the default value and leaves the main cache
and the side table unchanged while the history LRU receives the new count. -/
theorem claim_C5_miss_effects :
    (∀ (s : RainLruState Nat Nat) (k : Nat), findKey k s.list = none →
        RainLru.getB s k = (none, s)) ∧
      (∀ (s : RainLruKState Nat Nat) (k : Nat), findKey k s.base.list = none →
        (RainLru.getB s.historyList k).1.getD 0 + 1 < s.kThreshold →
        RainLruK.get s k =
          (0, ⟨s.base, s.kThreshold,
            RainLru.put (RainLru.getB s.historyList k).2 k
              ((RainLru.getB s.historyList k).1.getD 0 + 1),
            s.historyValueMap⟩)) := by
  constructor
  · intro s k h
    exact RainLru.getB_miss h
  · intro s k hmiss hcnt
    have hm := RainLru.getB_miss hmiss
    simp only [RainLruK.get, hm]
    have : ¬ ((RainLru.getB s.historyList k).1.getD 0 + 1 ≥ s.kThreshold) :=
      Nat.not_le_of_lt hcnt
    simp [this]

/-- Claim C5 witness. -/
theorem claim_C5_witness :
    findKey 3 (RainLruK.init 2 4 2 : RainLruKState Nat Nat).base.list = none ∧
      (RainLru.getB (RainLruK.init 2 4 2 : RainLruKState Nat Nat).historyList 3).1.getD 0 + 1 <
        (RainLruK.init 2 4 2 : RainLruKState Nat Nat).kThreshold ∧
      RainLruK.get (RainLruK.init 2 4 2 : RainLruKState Nat Nat) 3 =
        (0, ⟨(RainLruK.init 2 4 2 : RainLruKState Nat Nat).base, 2,
          RainLru.put (RainLru.getB (RainLruK.init 2 4 2 : RainLruKState Nat Nat).historyList 3).2 3 1,
          []⟩) :=
  ⟨by decide, by decide,
    by
      have h := claim_C5_miss_effects.2 (RainLruK.init 2 4 2 : RainLruKState Nat Nat) 3
        (by decide) (by decide)
      simpa using h⟩

/-- Claim C10: in LRU-K the side table of tentative values is erased only on
promotion: a below-threshold put rewrites exactly the put key's side-table
entry (history-LRU eviction never touches the side table), a below-threshold
missing get leaves the side table unchanged, and the side table is bounded by
no capacity parameter — n puts of distinct keys on an LRU-K with main
capacity 1, history capacity 1 and K = 2 leave the side table holding all n
values. -/
theorem claim_C10_side_table_persistence :
    (∀ (s : RainLruKState Nat Nat) (k v : Nat), findKey k s.base.list = none →
        (RainLru.getB s.historyList k).1.getD 0 + 1 < s.kThreshold →
        (RainLruK.put s k v).historyValueMap = insertKV k v s.historyValueMap) ∧
      (∀ (s : RainLruKState Nat Nat) (k : Nat), findKey k s.base.list = none →
        (RainLru.getB s.historyList k).1.getD 0 + 1 < s.kThreshold →
        (RainLruK.get s k).2.historyValueMap = s.historyValueMap) ∧
      (∀ n : Nat,
        ((List.range n).foldl (fun s i => RainLruK.put s i i)
          (RainLruK.init 1 1 2 : RainLruKState Nat Nat)).historyValueMap.length = n) := by
  refine ⟨?_, ?_, ?_⟩
  · intro s k v hmiss hcnt
    rw [RainLruK.put_miss_below hmiss hcnt]
  · intro s k hmiss hcnt
    rw [RainLruK.get_miss_below hmiss hcnt]
  · intro n
    exact (lruK_distinct_puts_invariant n).2.2.1

/-- Claim C10 witness. -/
theorem claim_C10_witness :
    findKey 1 (RainLruK.init 2 4 2 : RainLruKState Nat Nat).base.list = none ∧
      (RainLru.getB (RainLruK.init 2 4 2 : RainLruKState Nat Nat).historyList 1).1.getD 0 + 1 <
        (RainLruK.init 2 4 2 : RainLruKState Nat Nat).kThreshold ∧
      (RainLruK.put (RainLruK.init 2 4 2 : RainLruKState Nat Nat) 1 10).historyValueMap =
        insertKV 1 10 (RainLruK.init 2 4 2 : RainLruKState Nat Nat).historyValueMap :=
  ⟨by decide, by decide,
    claim_C10_side_table_persistence.1 (RainLruK.init 2 4 2) 1 10 (by decide) (by decide)⟩

/-- Claim C7: for every operation sequence, a plain LRU's live mapping size
never exceeds its capacity, each ARC half's live size never exceeds that
half's current live capacity, and each ARC half's ghost size never exceeds
its fixed ghost capacity (the construction capacity). -/
theorem claim_C7_capacity_bounds :
    (∀ (c : Int) (ops : List (LruOp Nat Nat)), 0 ≤ c →
        ((RainLru.run (RainLru.init c) ops).list.length : Int) ≤ c) ∧
      (∀ (c t : Nat) (ops : List (ArcOp Nat Nat)),
        (RainArc.run (RainArc.init c t) ops).lruPart.main.length ≤
            (RainArc.run (RainArc.init c t) ops).lruPart.capacity ∧
          (RainArc.run (RainArc.init c t) ops).lruPart.ghost.length ≤ c ∧
          (RainArc.run (RainArc.init c t) ops).lfuPart.main.length ≤
            (RainArc.run (RainArc.init c t) ops).lfuPart.capacity ∧
          (RainArc.run (RainArc.init c t) ops).lfuPart.ghost.length ≤ c) := by
  constructor
  · intro c ops hc
    refine (RainLru.run_inv ops (RainLru.init c) rfl ?_).2
    show ((([] : List (LruEntry Nat Nat)).length : Int) ≤ c)
    simpa using hc
  · intro c t ops
    cases c with
    | zero =>
      have hfix : RainArc.run (RainArc.init 0 t) ops = RainArc.init 0 t := by
        refine foldl_preserve
          (P := fun s : RainArcState Nat Nat => s = RainArc.init 0 t) ?_ ops _ rfl
        intro s op hs
        subst hs
        exact RainArc.step_init_zero t op
      rw [hfix]
      exact ⟨Nat.le_refl _, Nat.zero_le _, Nat.le_refl _, Nat.zero_le _⟩
    | succ m =>
      have h := foldl_preserve
        (P := fun s : RainArcState Nat Nat =>
          s.lruPart.ghostCapacity = m + 1 ∧ s.lfuPart.ghostCapacity = m + 1 ∧
            s.lruPart.main.length ≤ s.lruPart.capacity ∧
            s.lruPart.ghost.length ≤ m + 1 ∧
            s.lfuPart.main.length ≤ s.lfuPart.capacity ∧
            s.lfuPart.ghost.length ≤ m + 1)
        (fun s op hs =>
          RainArc.step_inv (Nat.succ_le_succ (Nat.zero_le m)) hs.1 hs.2.1 hs.2.2.1
            hs.2.2.2.1 hs.2.2.2.2.1 hs.2.2.2.2.2 op)
        ops (RainArc.init (m + 1) t)
        ⟨rfl, rfl, Nat.zero_le _, Nat.zero_le _, Nat.zero_le _, Nat.zero_le _⟩
      exact ⟨h.2.2.1, h.2.2.2.1, h.2.2.2.2.1, h.2.2.2.2.2⟩

/-- Claim C7 witness. -/
theorem claim_C7_witness :
    (0 : Int) ≤ 2 ∧
      ((RainLru.run (RainLru.init 2 : RainLruState Nat Nat)
        [LruOp.putOp 1 10, LruOp.putOp 2 20, LruOp.putOp 3 30]).list.length : Int) ≤ 2 :=
  ⟨by decide,
    claim_C7_capacity_bounds.1 2 [LruOp.putOp 1 10, LruOp.putOp 2 20, LruOp.putOp 3 30]
      (by decide)⟩

/-- Claim C9: a sharded LRU with total capacity `c` and slice count `n > 0`
consists of `n` independent plain LRUs of capacity `ceil(c / n)`, and after
any operation sequence the total number of resident entries never exceeds
`n * ceil(c / n)`. -/
theorem claim_C9_sharded_capacity (c n : Nat) (hash : Nat → Nat)
    (ops : List (ShardOp Nat Nat)) (hn : 1 ≤ n) :
    (RainLruHash.init c n : RainLruHashState Nat Nat).slices =
        List.replicate n (RainLru.init (((c + n - 1) / n : Nat) : Int)) ∧
      RainLruHash.totalSize (RainLruHash.run hash (RainLruHash.init c n) ops) ≤
        n * ((c + n - 1) / n) := by
  refine ⟨rfl, ?_⟩
  have hstep : ∀ (s : RainLruHashState Nat Nat) (op : ShardOp Nat Nat),
      (s.sliceNum = n ∧ s.slices.length = n ∧
        ∀ sl ∈ s.slices, sl.capacity = (((c + n - 1) / n : Nat) : Int) ∧
          (sl.list.length : Int) ≤ (((c + n - 1) / n : Nat) : Int)) →
      ((RainLruHash.step hash s op).sliceNum = n ∧
        (RainLruHash.step hash s op).slices.length = n ∧
        ∀ sl ∈ (RainLruHash.step hash s op).slices,
          sl.capacity = (((c + n - 1) / n : Nat) : Int) ∧
            (sl.list.length : Int) ≤ (((c + n - 1) / n : Nat) : Int)) := by
    intro s op hP
    obtain ⟨hsn, hslen, hinv⟩ := hP
    cases op with
    | putOp k v =>
      refine ⟨hsn, ?_, ?_⟩
      · show (s.slices.set _ _).length = n
        rw [List.length_set, hslen]
      · intro sl hsl
        rcases List.mem_or_eq_of_mem_set hsl with h | h
        · exact hinv sl h
        · have hi : hash k % s.sliceNum < s.slices.length := by
            rw [hslen, hsn]
            exact Nat.mod_lt _ (by omega)
          have hget : s.slices.getD (hash k % s.sliceNum) (RainLru.init 0) =
              s.slices[hash k % s.sliceNum] := List.getD_eq_getElem _ _ hi
          have hmem : s.slices[hash k % s.sliceNum] ∈ s.slices := List.getElem_mem hi
          have hsli := hinv _ hmem
          have hc0 : (s.slices.getD (hash k % s.sliceNum) (RainLru.init 0)).capacity =
              (((c + n - 1) / n : Nat) : Int) := by
            rw [hget]
            exact hsli.1
          have hl0 : ((s.slices.getD (hash k % s.sliceNum) (RainLru.init 0)).list.length : Int) ≤
              (((c + n - 1) / n : Nat) : Int) := by
            rw [hget]
            exact hsli.2
          subst h
          constructor
          · rw [RainLru.put_capacity]
            exact hc0
          · have hp := RainLru.put_length
              (s := s.slices.getD (hash k % s.sliceNum) (RainLru.init 0)) (k := k) (v := v)
              (by rw [hc0]; exact hl0)
            rw [hc0] at hp
            exact hp
    | getOp k =>
      refine ⟨hsn, ?_, ?_⟩
      · show (s.slices.set _ _).length = n
        rw [List.length_set, hslen]
      · intro sl hsl
        rcases List.mem_or_eq_of_mem_set hsl with h | h
        · exact hinv sl h
        · have hi : hash k % s.sliceNum < s.slices.length := by
            rw [hslen, hsn]
            exact Nat.mod_lt _ (by omega)
          have hget : s.slices.getD (hash k % s.sliceNum) (RainLru.init 0) =
              s.slices[hash k % s.sliceNum] := List.getD_eq_getElem _ _ hi
          have hmem : s.slices[hash k % s.sliceNum] ∈ s.slices := List.getElem_mem hi
          have hsli := hinv _ hmem
          subst h
          constructor
          · rw [RainLru.getB_capacity, hget]
            exact hsli.1
          · have hlen := RainLru.getB_length
              (s.slices.getD (hash k % s.sliceNum) (RainLru.init 0)) k
            have hl0 : ((s.slices.getD (hash k % s.sliceNum) (RainLru.init 0)).list.length : Int) ≤
                (((c + n - 1) / n : Nat) : Int) := by
              rw [hget]
              exact hsli.2
            omega
  have hrun := foldl_preserve
    (P := fun s : RainLruHashState Nat Nat =>
      s.sliceNum = n ∧ s.slices.length = n ∧
        ∀ sl ∈ s.slices, sl.capacity = (((c + n - 1) / n : Nat) : Int) ∧
          (sl.list.length : Int) ≤ (((c + n - 1) / n : Nat) : Int))
    hstep ops (RainLruHash.init c n)
    ⟨rfl, by simp [RainLruHash.init], by
      intro sl hsl
      have hsl2 := List.eq_of_mem_replicate hsl
      subst hsl2
      exact ⟨rfl, by exact_mod_cast Nat.zero_le ((c + n - 1) / n)⟩⟩
  obtain ⟨-, hlen2, hinv2⟩ := hrun
  show (List.map (fun sl : RainLruState Nat Nat => sl.list.length)
      (RainLruHash.run hash (RainLruHash.init c n) ops).slices).sum ≤ n * ((c + n - 1) / n)
  have hb : ∀ x ∈ List.map (fun sl : RainLruState Nat Nat => sl.list.length)
      (RainLruHash.run hash (RainLruHash.init c n) ops).slices, x ≤ (c + n - 1) / n := by
    intro x hx
    rcases List.mem_map.mp hx with ⟨sl, hsl, rfl⟩
    have h := (hinv2 sl hsl).2
    exact_mod_cast h
  have hsum := List.sum_le_card_nsmul _ ((c + n - 1) / n) hb
  have hlen3 : (RainLruHash.run hash (RainLruHash.init c n) ops).slices.length = n := hlen2
  rw [List.length_map, hlen3] at hsum
  simpa [smul_eq_mul] using hsum

/-- Claim C9 witness: with total capacity 4 and 2 slices, after 5 puts of
distinct keys at most 4 entries are resident. -/
theorem claim_C9_witness :
    1 ≤ 2 ∧
      RainLruHash.totalSize (RainLruHash.run id (RainLruHash.init 4 2 : RainLruHashState Nat Nat)
        [ShardOp.putOp 1 1, ShardOp.putOp 2 2, ShardOp.putOp 3 3,
          ShardOp.putOp 4 4, ShardOp.putOp 5 5]) ≤ 2 * ((4 + 2 - 1) / 2) :=
  ⟨by decide,
    (claim_C9_sharded_capacity 4 2 id
      [ShardOp.putOp 1 1, ShardOp.putOp 2 2, ShardOp.putOp 3 3,
        ShardOp.putOp 4 4, ShardOp.putOp 5 5] (by decide)).2⟩

/-- Claim C2 counterexample: with capacity 1 and threshold 2 the trace
put 1, put 2, get 1, put 3, put 4 reaches a state where key 2 sits in the
R ghost while F's live capacity is already 0; the next access (get 2) removes
the ghost entry but changes neither capacity — the hitting half does not
grow when the other half cannot shrink, and the sum of live capacities stays
at its initial value 2 (= 2·C) throughout. -/
theorem claim_C2_counterexample :
    (2 : Nat) ∈ (RainArc.run (RainArc.init 1 2 : RainArcState Nat Nat)
        [ArcOp.putOp 1 10, ArcOp.putOp 2 20, ArcOp.getOp 1, ArcOp.putOp 3 30,
          ArcOp.putOp 4 40]).lruPart.ghost ∧
      (RainArc.run (RainArc.init 1 2 : RainArcState Nat Nat)
        [ArcOp.putOp 1 10, ArcOp.putOp 2 20, ArcOp.getOp 1, ArcOp.putOp 3 30,
          ArcOp.putOp 4 40]).lfuPart.capacity = 0 ∧
      (RainArc.run (RainArc.init 1 2 : RainArcState Nat Nat)
        [ArcOp.putOp 1 10, ArcOp.putOp 2 20, ArcOp.getOp 1, ArcOp.putOp 3 30,
          ArcOp.putOp 4 40]).lruPart.capacity = 2 ∧
      (RainArc.getB (RainArc.run (RainArc.init 1 2 : RainArcState Nat Nat)
        [ArcOp.putOp 1 10, ArcOp.putOp 2 20, ArcOp.getOp 1, ArcOp.putOp 3 30,
          ArcOp.putOp 4 40]) 2).2.lruPart.capacity = 2 ∧
      (RainArc.getB (RainArc.run (RainArc.init 1 2 : RainArcState Nat Nat)
        [ArcOp.putOp 1 10, ArcOp.putOp 2 20, ArcOp.getOp 1, ArcOp.putOp 3 30,
          ArcOp.putOp 4 40]) 2).2.lfuPart.capacity = 0 ∧
      (2 : Nat) ∉ (RainArc.getB (RainArc.run (RainArc.init 1 2 : RainArcState Nat Nat)
        [ArcOp.putOp 1 10, ArcOp.putOp 2 20, ArcOp.getOp 1, ArcOp.putOp 3 30,
          ArcOp.putOp 4 40]) 2).2.lruPart.ghost := by
  decide

/-- Claim C2 (amended): ghost hits shift capacity only when the shrinking
half's decreaseCapacity succeeds, so the sum of the two live capacities is
conserved: after every operation sequence it equals its initial value 2·C. -/
theorem claim_C2_capacity_sum_conserved (c t : Nat) (ops : List (ArcOp Nat Nat)) :
    (RainArc.run (RainArc.init c t) ops).lruPart.capacity +
      (RainArc.run (RainArc.init c t) ops).lfuPart.capacity = 2 * c := by
  have hstep : ∀ (s : RainArcState Nat Nat) (op : ArcOp Nat Nat),
      s.lruPart.capacity + s.lfuPart.capacity = 2 * c →
      (RainArc.step s op).lruPart.capacity + (RainArc.step s op).lfuPart.capacity = 2 * c := by
    intro s op hp
    cases op with
    | putOp k v =>
      have h := RainArc.put_capacities s k v
      show (RainArc.put s k v).lruPart.capacity + (RainArc.put s k v).lfuPart.capacity = 2 * c
      rw [h.1, h.2, RainArc.checkGhostCaches_capacity_sum]
      exact hp
    | getOp k =>
      have h := RainArc.getB_capacities s k
      show (RainArc.getB s k).2.lruPart.capacity + (RainArc.getB s k).2.lfuPart.capacity = 2 * c
      rw [h.1, h.2, RainArc.checkGhostCaches_capacity_sum]
      exact hp
  exact foldl_preserve hstep ops (RainArc.init c t) (by show c + c = 2 * c; omega)

/-- Claim C6: the ghost lists are consulted R first and F only on an R miss;
a ghost hit always removes the key from that ghost list; the hitting half's
capacity grows by 1 exactly when the other half's capacity was positive and
was simultaneously decremented, and no capacity shift happens when the other
half's capacity is 0; every ARC access leaves the capacities exactly as the
ghost check does. -/
theorem claim_C6_ghost_check (s : RainArcState Nat Nat) (k : Nat) :
    (k ∈ s.lruPart.ghost →
        (RainArc.checkGhostCaches s k).1 = true ∧
          (RainArc.checkGhostCaches s k).2.lruPart.ghost = removeKeyG k s.lruPart.ghost ∧
          (RainArc.checkGhostCaches s k).2.lruPart.main = s.lruPart.main ∧
          (RainArc.checkGhostCaches s k).2.lfuPart = (ArcPart.decreaseCapacity s.lfuPart).2 ∧
          (0 < s.lfuPart.capacity →
            (RainArc.checkGhostCaches s k).2.lruPart.capacity = s.lruPart.capacity + 1 ∧
              (RainArc.checkGhostCaches s k).2.lfuPart.capacity = s.lfuPart.capacity - 1) ∧
          (s.lfuPart.capacity = 0 →
            (RainArc.checkGhostCaches s k).2.lruPart.capacity = s.lruPart.capacity ∧
              (RainArc.checkGhostCaches s k).2.lfuPart = s.lfuPart)) ∧
      (k ∉ s.lruPart.ghost → k ∈ s.lfuPart.ghost →
        (RainArc.checkGhostCaches s k).1 = true ∧
          (RainArc.checkGhostCaches s k).2.lfuPart.ghost = removeKeyG k s.lfuPart.ghost ∧
          (RainArc.checkGhostCaches s k).2.lfuPart.main = s.lfuPart.main ∧
          (RainArc.checkGhostCaches s k).2.lruPart = (ArcPart.decreaseCapacity s.lruPart).2 ∧
          (0 < s.lruPart.capacity →
            (RainArc.checkGhostCaches s k).2.lfuPart.capacity = s.lfuPart.capacity + 1 ∧
              (RainArc.checkGhostCaches s k).2.lruPart.capacity = s.lruPart.capacity - 1) ∧
          (s.lruPart.capacity = 0 →
            (RainArc.checkGhostCaches s k).2.lfuPart.capacity = s.lfuPart.capacity ∧
              (RainArc.checkGhostCaches s k).2.lruPart = s.lruPart)) ∧
      (k ∉ s.lruPart.ghost → k ∉ s.lfuPart.ghost →
        RainArc.checkGhostCaches s k = (false, s)) ∧
      (∀ v : Nat,
        (RainArc.put s k v).lruPart.capacity =
            (RainArc.checkGhostCaches s k).2.lruPart.capacity ∧
          (RainArc.put s k v).lfuPart.capacity =
            (RainArc.checkGhostCaches s k).2.lfuPart.capacity) ∧
      ((RainArc.getB s k).2.lruPart.capacity =
          (RainArc.checkGhostCaches s k).2.lruPart.capacity ∧
        (RainArc.getB s k).2.lfuPart.capacity =
          (RainArc.checkGhostCaches s k).2.lfuPart.capacity) := by
  refine ⟨?_, ?_, fun h1 h2 => RainArc.checkGhostCaches_not_mem h1 h2,
    fun v => RainArc.put_capacities s k v, RainArc.getB_capacities s k⟩
  · intro hm
    by_cases hz : s.lfuPart.capacity = 0
    · rw [RainArc.checkGhostCaches_lru_mem_zero hm hz, ArcPart.decreaseCapacity_zero hz]
      exact ⟨rfl, rfl, rfl, rfl,
        fun h0 => absurd hz (Nat.pos_iff_ne_zero.mp h0),
        fun _ => ⟨rfl, rfl⟩⟩
    · rw [RainArc.checkGhostCaches_lru_mem_pos hm hz]
      have hd := ArcPart.decreaseCapacity_pos hz
      exact ⟨rfl, rfl, rfl, rfl, fun _ => ⟨rfl, hd.2.1⟩, fun h0 => absurd h0 hz⟩
  · intro hm1 hm2
    by_cases hz : s.lruPart.capacity = 0
    · rw [RainArc.checkGhostCaches_lfu_mem_zero hm1 hm2 hz, ArcPart.decreaseCapacity_zero hz]
      exact ⟨rfl, rfl, rfl, rfl,
        fun h0 => absurd hz (Nat.pos_iff_ne_zero.mp h0),
        fun _ => ⟨rfl, rfl⟩⟩
    · rw [RainArc.checkGhostCaches_lfu_mem_pos hm1 hm2 hz]
      have hd := ArcPart.decreaseCapacity_pos hz
      exact ⟨rfl, rfl, rfl, rfl, fun _ => ⟨rfl, hd.2.1⟩, fun h0 => absurd h0 hz⟩

/-- Claim C6 witness. -/
theorem claim_C6_witness :
    (7 : Nat) ∈ (⟨2, 2, ⟨2, 2, 2, [], [7]⟩, ⟨1, 2, 2, [], []⟩⟩ : RainArcState Nat Nat).lruPart.ghost ∧
      0 < (⟨2, 2, ⟨2, 2, 2, [], [7]⟩, ⟨1, 2, 2, [], []⟩⟩ : RainArcState Nat Nat).lfuPart.capacity ∧
      (RainArc.checkGhostCaches
        (⟨2, 2, ⟨2, 2, 2, [], [7]⟩, ⟨1, 2, 2, [], []⟩⟩ : RainArcState Nat Nat) 7).2.lruPart.capacity =
        2 + 1 := by
  refine ⟨by decide, by decide, ?_⟩
  have h := ((claim_C6_ghost_check
    (⟨2, 2, ⟨2, 2, 2, [], [7]⟩, ⟨1, 2, 2, [], []⟩⟩ : RainArcState Nat Nat) 7).1
      (by decide)).2.2.2.2.1 (by decide)
  exact h.1

/-- Claim C1 counterexample: for ARC with capacity 2 and threshold 2, the put
of the brand-new key 5 (present in no ghost list, access count 1 < T) does
modify the F half: afterwards the F half's live list holds entry (5, 42, 1),
whereas it was empty before. -/
theorem claim_C1_counterexample :
    (RainArc.put (RainArc.init 2 2 : RainArcState Nat Nat) 5 42).lfuPart.main =
        [⟨5, 42, 1⟩] ∧
      (RainArc.init 2 2 : RainArcState Nat Nat).lfuPart.main = [] ∧
      (5 : Nat) ∉ (RainArc.init 2 2 : RainArcState Nat Nat).lruPart.ghost ∧
      (5 : Nat) ∉ (RainArc.init 2 2 : RainArcState Nat Nat).lfuPart.ghost := by
  decide

/-- Claim C1 (amended): for a key in neither ghost list, `RainArc::put`
inserts into the F half whenever the R half's put succeeded, and
`ArcLruPart::put` returns true exactly when the R capacity is nonzero —
regardless of any access count — so a brand-new key is installed into both
halves; only a zero R capacity leaves the state unchanged. -/
theorem claim_C1_put_inserts_into_both_halves (s : RainArcState Nat Nat)
    (k v : Nat) (h1 : k ∉ s.lruPart.ghost) (h2 : k ∉ s.lfuPart.ghost) :
    (ArcLru.put s.lruPart k v).1 = !(decide (s.lruPart.capacity = 0)) ∧
      (s.lruPart.capacity ≠ 0 →
        RainArc.put s k v =
          { s with lruPart := (ArcLru.put s.lruPart k v).2,
                   lfuPart := (ArcLfu.put s.lfuPart k v).2 }) ∧
      (s.lruPart.capacity = 0 → RainArc.put s k v = s) := by
  have hg := RainArc.checkGhostCaches_not_mem h1 h2
  have hb : (RainArc.checkGhostCaches s k).1 = false := by rw [hg]
  have hlru : (RainArc.checkGhostCaches s k).2.lruPart = s.lruPart := by rw [hg]
  refine ⟨ArcLru.put_fst _ _ _, ?_, ?_⟩
  · intro hc
    have hr : (ArcLru.put (RainArc.checkGhostCaches s k).2.lruPart k v).1 = true := by
      rw [hlru, ArcLru.put_fst]
      simp [hc]
    rw [RainArc.put_case_both v hb hr, hg]
  · intro hc
    have hr : (ArcLru.put (RainArc.checkGhostCaches s k).2.lruPart k v).1 = false := by
      rw [hlru, ArcLru.put_fst]
      simp [hc]
    rw [RainArc.put_case_rejected v hb hr, hg, ArcLru.put_zero hc]

/-- Claim C1 witness. -/
theorem claim_C1_witness :
    (5 : Nat) ∉ (RainArc.init 2 2 : RainArcState Nat Nat).lruPart.ghost ∧
      (5 : Nat) ∉ (RainArc.init 2 2 : RainArcState Nat Nat).lfuPart.ghost ∧
      (RainArc.init 2 2 : RainArcState Nat Nat).lruPart.capacity ≠ 0 ∧
      RainArc.put (RainArc.init 2 2 : RainArcState Nat Nat) 5 42 =
        { (RainArc.init 2 2 : RainArcState Nat Nat) with
            lruPart := (ArcLru.put (RainArc.init 2 2 : RainArcState Nat Nat).lruPart 5 42).2,
            lfuPart := (ArcLfu.put (RainArc.init 2 2 : RainArcState Nat Nat).lfuPart 5 42).2 } := by
  refine ⟨by decide, by decide, by decide, ?_⟩
  exact (claim_C1_put_inserts_into_both_halves (RainArc.init 2 2) 5 42
    (by decide) (by decide)).2.1 (by decide)

/-! ## ARC stability of a resident R entry under repeated gets -/

theorem findKey_cons_self (k : K) (v : V) (c : Nat) (l : List (LruEntry K V)) :
    findKey k (⟨k, v, c⟩ :: l) = some ⟨k, v, c⟩ := by
  simp [findKey]

theorem RainArc.getB_stable {s : RainArcState K V} {k : K} {v : V}
    (hr0 : ∃ c, findKey k s.lruPart.main = some ⟨k, v, c⟩)
    (h1 : k ∉ s.lruPart.ghost) (h2 : k ∉ s.lfuPart.ghost) :
    (RainArc.getB s k).1 = some v ∧
      (∃ c, findKey k (RainArc.getB s k).2.lruPart.main = some ⟨k, v, c⟩) ∧
      k ∉ (RainArc.getB s k).2.lruPart.ghost ∧
      k ∉ (RainArc.getB s k).2.lfuPart.ghost := by
  obtain ⟨c, hf⟩ := hr0
  have hg := RainArc.checkGhostCaches_not_mem h1 h2
  have hlru2 : (RainArc.checkGhostCaches s k).2 = s := by rw [hg]
  have hget := ArcLru.get_hit (s := s.lruPart) (k := k) hf
  have hmove : (ArcLru.get s.lruPart k).2.main =
      ⟨k, v, c + 1⟩ :: removeKey k s.lruPart.main := by
    rw [hget]
  have hghost : (ArcLru.get s.lruPart k).2.ghost = s.lruPart.ghost :=
    (ArcLru.getR_frame _ _).2.2.2.1
  cases hst : decide (c + 1 ≥ s.lruPart.transformThreshold) with
  | true =>
    have hr1 : (ArcLru.get (RainArc.checkGhostCaches s k).2.lruPart k).1 = some (v, true) := by
      rw [hlru2, hget]
      simp [hst]
    rw [RainArc.getB_case_hit_high hr1, hlru2]
    refine ⟨rfl, ⟨c + 1, ?_⟩, ?_, ?_⟩
    · show findKey k (ArcLru.get s.lruPart k).2.main = some ⟨k, v, c + 1⟩
      rw [hmove, findKey_cons_self]
    · show k ∉ (ArcLru.get s.lruPart k).2.ghost
      rw [hghost]
      exact h1
    · exact ArcLfu.put_ghost_not_mem h2
  | false =>
    have hr1 : (ArcLru.get (RainArc.checkGhostCaches s k).2.lruPart k).1 = some (v, false) := by
      rw [hlru2, hget]
      simp [hst]
    rw [RainArc.getB_case_hit_low hr1, hlru2]
    refine ⟨rfl, ⟨c + 1, ?_⟩, ?_, h2⟩
    · show findKey k (ArcLru.get s.lruPart k).2.main = some ⟨k, v, c + 1⟩
      rw [hmove, findKey_cons_self]
    · show k ∉ (ArcLru.get s.lruPart k).2.ghost
      rw [hghost]
      exact h1

theorem RainArc.iterGet_stable {k : K} {v : V} (n : Nat) :
    ∀ s : RainArcState K V,
      (∃ c, findKey k s.lruPart.main = some ⟨k, v, c⟩) →
      k ∉ s.lruPart.ghost → k ∉ s.lfuPart.ghost →
      (RainArc.getB (RainArc.iterGet k n s) k).1 = some v := by
  induction n with
  | zero =>
    intro s hr h1 h2
    exact (RainArc.getB_stable hr h1 h2).1
  | succ m ih =>
    intro s hr h1 h2
    obtain ⟨-, hr2, h12, h22⟩ := RainArc.getB_stable hr h1 h2
    show (RainArc.getB (RainArc.iterGet k m (RainArc.getB s k).2) k).1 = some v
    exact ih _ hr2 h12 h22

/-- Claim C8: after `put(1, 100); get(1); get(1)` on ARC with threshold 2
(capacity 10, the constructor default), the second get fires the transform
flag and installs (1, 100) into F, yet key 1 remains resident in R-live (with
its count advanced to 3) as well as in F-live, and every subsequent `get(1)`
— for any number of repetitions — still returns 100, read from R because
`get` consults R before F. -/
theorem claim_C8_promotion_keeps_R_residency :
    (ArcLru.get ((RainArc.getB (RainArc.put (RainArc.init 10 2 : RainArcState Nat Nat) 1 100) 1).2).lruPart 1).1 =
        some (100, true) ∧
      findKey 1 ((RainArc.getB ((RainArc.getB (RainArc.put (RainArc.init 10 2 : RainArcState Nat Nat) 1 100) 1).2) 1).2).lruPart.main =
        some ⟨1, 100, 3⟩ ∧
      findKey 1 ((RainArc.getB ((RainArc.getB (RainArc.put (RainArc.init 10 2 : RainArcState Nat Nat) 1 100) 1).2) 1).2).lfuPart.main =
        some ⟨1, 100, 3⟩ ∧
      (RainArc.getB ((RainArc.getB (RainArc.put (RainArc.init 10 2 : RainArcState Nat Nat) 1 100) 1).2) 1).1 =
        some 100 ∧
      ∀ n : Nat,
        (RainArc.getB (RainArc.iterGet 1 n
          ((RainArc.getB ((RainArc.getB (RainArc.put (RainArc.init 10 2 : RainArcState Nat Nat) 1 100) 1).2) 1).2)) 1).1 =
          some 100 := by
  refine ⟨by decide, by decide, by decide, by decide, ?_⟩
  intro n
  exact RainArc.iterGet_stable n _ ⟨3, by decide⟩ (by decide) (by decide)

end RainCache
